import Mathlib

/- Shallow embedding of the co-flow fair-queue packet scheduler of
src/sch_fq.c (a modified Linux sch_fq qdisc).  Machine integers are
modelled as Nat (u32/u64) and Int (the signed per-flow credit); the u64
all-ones sentinel ~0ULL is the constant INF64.  Kernel red-black trees
are modelled as sorted lists (rb_first = list head), the hash-bucketed
flow table as a single association list keyed by the flow key, and the
singly linked round-robin lists as lists of flow keys.  External kernel
services (the clock ktime_get_ns, jiffies, allocation success) are
passed in as parameters.  Helpers declared only in the missing header
fqtest.h (fq_flow_add_tail, valuePresentInArray, Promotecoflows and the
module globals pFlowid, ucounter, flipflag, sport, dport) are modelled
from the spec and marked as such. -/

set_option maxRecDepth 10000

namespace SchFq

/-- The u64 value ~0ULL, used by the source as a plus-infinity sentinel. -/
def INF64 : Nat := 18446744073709551615

def NSEC_PER_SEC : Nat := 1000000000

def NSEC_PER_USEC : Nat := 1000

/-- Kernel HZ; the source converts between usecs/msecs and jiffies through
kernel helpers.  The concrete HZ value is irrelevant to the claims; we fix
HZ = 1000 so the conversions are executable. -/
def HZ : Nat := 1000

def usecs_to_jiffies (us : Nat) : Nat := us * HZ / 1000000

def msecs_to_jiffies (ms : Nat) : Nat := ms * HZ / 1000

def TC_PRIO_MAX : Nat := 15

def TC_PRIO_CONTROL : Nat := 7

def FQ_GC_MAX : Nat := 8

def FQ_GC_AGE : Nat := 3 * HZ

/-- An sk_buff together with the fields the scheduler reads: length,
transmit-after timestamp (0 = none), priority, owning socket (none =
orphan) with its hash / state bits / port numbers / pacing rate, the
header hash skb_get_hash, and the scheduler-owned annotation
time_to_send (field tts) set during enqueue. -/
structure Pkt where
  len : Nat
  tstamp : Nat
  tts : Nat
  priority : Nat
  sk : Option Nat
  sk_hash : Nat
  sk_listener : Bool
  sk_tcp_close : Bool
  skb_hash : Nat
  sport : Nat
  dport : Nat
  pacing_rate : Option Nat
deriving DecidableEq, Repr

/-- struct fq_flow.  The singly linked head..tail chain is the list fifo;
the rb tree t_root of out-of-order packets is a list sorted by tts
ascending (rb_first = head).  The C source overlays tail and age with a
low-bit tag; we model the tag as the Boolean detached and keep age
separately, and clear detached exactly where the C code overwrites the
shared storage (writing tail in flow_queue_add). -/
structure fq_flow where
  sk : Nat
  socket_hash : Nat
  credit : Int
  qlen : Nat
  time_next_packet : Nat
  fifo : List Pkt
  t_root : List Pkt
  detached : Bool
  age : Nat
deriving DecidableEq, Repr

def flowDefault : fq_flow :=
  { sk := 0, socket_hash := 0, credit := 0, qlen := 0, time_next_packet := 0,
    fifo := [], t_root := [], detached := false, age := 0 }

instance : Inhabited fq_flow := ⟨flowDefault⟩

/-- fq_peek: the earlier of the t_root minimum (rb_first, here the head of
the sorted list) and the fifo head; ties go to the fifo head. -/
def fq_peek (f : fq_flow) : Option Pkt :=
  match f.t_root.head?, f.fifo.head? with
  | none, h => h
  | some s, none => some s
  | some s, some h => if s.tts < h.tts then some s else some h

/-- fq_erase_head: remove a packet previously returned by fq_peek, either
the fifo head or a t_root node. -/
def fq_erase_head (f : fq_flow) (p : Pkt) : fq_flow :=
  if f.fifo.head? = some p then { f with fifo := f.fifo.tail }
  else { f with t_root := f.t_root.erase p }

/-- fq_dequeue_skb restricted to the flow: erase the peeked packet and
decrement the flow qlen (the qdisc-global qlen is decremented at the call
site). -/
def fq_dequeue_skb_flow (f : fq_flow) (p : Pkt) : fq_flow :=
  let f2 := fq_erase_head f p
  { f2 with qlen := f2.qlen - 1 }

/-- Insertion position in the t_root tree: the C walk goes right while
skb.tts >= aux.tts, i.e. the new packet lands after every packet with a
tts less than or equal to its own. -/
def edtInsert : List Pkt → Pkt → List Pkt
  | [], p => [p]
  | x :: xs, p => if x.tts ≤ p.tts then x :: edtInsert xs p else p :: x :: xs

/-- Whether the fast path of flow_queue_add applies: no head, or
skb.tts >= tail.tts.  (With an empty fifo the C code short-circuits
before reading tail.) -/
def tailFits (f : fq_flow) (p : Pkt) : Bool :=
  match f.fifo.getLast? with
  | none => true
  | some t => t.tts ≤ p.tts

/-- flow_queue_add: append to the fifo tail when in order (this writes
flow->tail, which shares storage with age, hence clears the detached
tag), otherwise insert into the t_root tree ordered by tts. -/
def flow_queue_add (f : fq_flow) (p : Pkt) : fq_flow :=
  if f.fifo.isEmpty || tailFits f p then
    { f with fifo := f.fifo ++ [p], detached := false }
  else
    { f with t_root := edtInsert f.t_root p }

/-- fq_flow_set_detached: tag the flow detached and record the jiffies
stamp in age (the C code stores jiffies | 1 in the shared location). -/
def fq_flow_set_detached (f : fq_flow) (jiffies : Nat) : fq_flow :=
  { f with detached := true, age := jiffies }

/-- fq_gc_candidate: detached and older than FQ_GC_AGE
(time_after(jiffies, age + FQ_GC_AGE) is a strict comparison). -/
def fq_gc_candidate (jiffies : Nat) (f : fq_flow) : Bool :=
  f.detached && decide (f.age + FQ_GC_AGE < jiffies)

/-- struct fq_sched_data together with the Qdisc fields the source reads
(sch->limit, sch->q.qlen) and the module globals declared in the missing
fqtest.h (pFlowid[2], ucounter, flipflag, sport, dport); the source keeps
those globals outside the per-qdisc state, so neither fq_init nor
fq_reset touches them.  flowsTbl is the hash table of flows, new_flows /
old_flows / co_flows the three round-robin lists (as lists of flow keys),
delayed the throttle rb tree as a list of flow keys sorted by
time_next_packet ascending. -/
structure fq_sched_data where
  flowsTbl : List fq_flow
  internal : fq_flow
  new_flows : List Nat
  old_flows : List Nat
  co_flows : List Nat
  delayed : List Nat
  time_next_delayed_flow : Nat
  qlen : Nat
  limit : Nat
  flow_plimit : Nat
  quantum : Nat
  initial_quantum : Nat
  flow_refill_delay : Nat
  flow_max_rate : Nat
  low_rate_threshold : Nat
  rate_enable : Bool
  orphan_mask : Nat
  ce_threshold : Nat
  timer_slack : Nat
  horizon : Nat
  horizon_drop : Bool
  fq_trees_log : Nat
  f1_sourceport : Nat
  f2_sourceport : Nat
  f1_destport : Nat
  f2_destport : Nat
  ktime_cache : Nat
  flows : Nat
  inactive_flows : Nat
  throttled_flows : Nat
  stat_gc_flows : Nat
  stat_internal_packets : Nat
  stat_throttled : Nat
  stat_flows_plimit : Nat
  stat_pkts_too_long : Nat
  stat_allocation_errors : Nat
  stat_ce_mark : Nat
  stat_horizon_drops : Nat
  stat_horizon_caps : Nat
  unthrottle_latency_ns : Nat
  pFlowid0 : Int
  pFlowid1 : Int
  ucounter : Nat
  flipflag : Bool
  gsport : Nat
  gdport : Nat
deriving DecidableEq, Repr

/-- Look a flow up in the table by key (the rb-tree bucket walk of the
source, abstracted to an association-list search; keys are unique). -/
def getFlow (q : fq_sched_data) (k : Nat) : fq_flow :=
  (q.flowsTbl.find? (fun f => f.sk == k)).getD flowDefault

/-- Write a flow back into the table at its key. -/
def setFlow (q : fq_sched_data) (k : Nat) (f : fq_flow) : fq_sched_data :=
  { q with flowsTbl := q.flowsTbl.map (fun g => if g.sk == k then f else g) }

/-- The live time_next_packet of the flow with key k (the rb tree node of
the source stores the flow, whose field is read directly). -/
def getTnp (q : fq_sched_data) (k : Nat) : Nat :=
  (getFlow q k).time_next_packet

/-- Modelled from the spec: fq_flow_add_tail is declared in the missing
fqtest.h; RRLists push_tail appends the flow at the list tail and clears
its list linkage (section 4.2 of the spec). -/
def fq_flow_add_tail (l : List Nat) (k : Nat) : List Nat := l ++ [k]

/-- fq_flow_is_throttled: the flow next pointer equals the throttled
sentinel exactly while the flow sits in the delayed tree. -/
def fq_flow_is_throttled (q : fq_sched_data) (k : Nat) : Bool :=
  q.delayed.contains k

/-- fq_flow_unset_throttled: erase from the delayed tree, decrement the
throttled count and append the flow to old_flows.  Note the source does
NOT update time_next_delayed_flow here. -/
def fq_flow_unset_throttled (q : fq_sched_data) (k : Nat) : fq_sched_data :=
  { q with delayed := q.delayed.erase k,
           throttled_flows := q.throttled_flows - 1,
           old_flows := fq_flow_add_tail q.old_flows k }

/-- Insertion position in the delayed tree: the C walk goes right while
f.time_next_packet >= aux.time_next_packet, so the flow lands after every
flow whose time_next_packet is less than or equal to its own. -/
def delayedInsert (q : fq_sched_data) (k : Nat) : List Nat → List Nat
  | [] => [k]
  | x :: xs =>
    if getTnp q x ≤ getTnp q k then x :: delayedInsert q k xs else k :: x :: xs

/-- fq_flow_set_throttled: sorted insert into the delayed tree, bump the
counters, and lower time_next_delayed_flow to the flow time_next_packet
if that is smaller. -/
def fq_flow_set_throttled (q : fq_sched_data) (k : Nat) : fq_sched_data :=
  { q with delayed := delayedInsert q k q.delayed,
           throttled_flows := q.throttled_flows + 1,
           stat_throttled := q.stat_throttled + 1,
           time_next_delayed_flow := min q.time_next_delayed_flow (getTnp q k) }

/-- The while loop of fq_check_throttled: repeatedly look at rb_first
(the head of the sorted delayed list); a flow still in the future sets
time_next_delayed_flow and breaks, a due flow is unthrottled.  The list
argument mirrors q.delayed and makes the recursion structural. -/
def fq_check_scan (now : Nat) : List Nat → fq_sched_data → fq_sched_data
  | [], q => q
  | k :: rest, q =>
    if now < getTnp q k then { q with time_next_delayed_flow := getTnp q k }
    else fq_check_scan now rest (fq_flow_unset_throttled q k)

/-- fq_check_throttled: nothing to do while time_next_delayed_flow is in
the future; otherwise update the unthrottle latency EWMA
(unl -= unl >> 3; unl += sample >> 3), reset time_next_delayed_flow to
~0ULL and scan the delayed tree in order. -/
def fq_check_throttled (q : fq_sched_data) (now : Nat) : fq_sched_data :=
  if now < q.time_next_delayed_flow then q
  else
    let sample := now - q.time_next_delayed_flow
    let q1 := { q with
      unthrottle_latency_ns :=
        q.unthrottle_latency_ns - q.unthrottle_latency_ns / 8 + sample / 8,
      time_next_delayed_flow := INF64 }
    fq_check_scan now q1.delayed q1

/-- The prefix of the bucket walk visited by fq_gc: flows seen before the
probe key, collecting up to FQ_GC_MAX gc candidates. -/
def fq_gc_collect (jiffies key : Nat) : List fq_flow → Nat → List Nat
  | [], _ => []
  | f :: rest, fuel =>
    if fuel = 0 then []
    else if f.sk = key then []
    else if fq_gc_candidate jiffies f then
      f.sk :: fq_gc_collect jiffies key rest (fuel - 1)
    else fq_gc_collect jiffies key rest fuel

/-- fq_gc: opportunistically erase the collected candidates from the
table and adjust the counters. -/
def fq_gc (jiffies key : Nat) (q : fq_sched_data) : fq_sched_data :=
  let ks := fq_gc_collect jiffies key q.flowsTbl FQ_GC_MAX
  if ks = [] then q
  else
    { q with flowsTbl := q.flowsTbl.filter (fun f => !(ks.contains f.sk)),
             flows := q.flows - ks.length,
             inactive_flows := q.inactive_flows - ks.length,
             stat_gc_flows := q.stat_gc_flows + ks.length }

/-- Result of fq_classify: the internal high-priority flow or a table
flow named by its key. -/
inductive ClassifyRes
  | internal
  | flow (k : Nat)
deriving DecidableEq, Repr

/-- The flow key fq_classify computes: control-priority packets go to the
internal flow (handled by the caller); orphan / listener / TCP_CLOSE
endpoints get the synthetic odd key (hash & orphan_mask) << 1 | 1,
otherwise the key is the socket pointer itself. -/
def classifyKey (p : Pkt) (q : fq_sched_data) : Nat :=
  if p.sk.isNone || p.sk_listener then ((p.skb_hash &&& q.orphan_mask) <<< 1) ||| 1
  else if p.sk_tcp_close then ((p.skb_hash &&& q.orphan_mask) <<< 1) ||| 1
  else p.sk.getD 0

/-- Whether skb->sk still equals the classify key at the reuse check:
true exactly on the non-synthetic path (in the orphan branch the skb was
orphaned, and synthetic keys are odd while socket pointers are even). -/
def classifyRealSk (p : Pkt) : Bool :=
  p.sk.isSome && !p.sk_listener && !p.sk_tcp_close

/-- The endpoint-reuse branch of fq_classify, in source order: refill
the credit with initial_quantum and update the socket_hash snapshot,
pull the flow out of the throttle tree if it was throttled, then clear
time_next_packet. -/
def fq_classify_reuse (p : Pkt) (key : Nat) (q1 : fq_sched_data) : fq_sched_data :=
  let q2 := setFlow q1 key
    { getFlow q1 key with credit := Int.ofNat q1.initial_quantum,
                          socket_hash := p.sk_hash }
  let q3 := if fq_flow_is_throttled q2 key then fq_flow_unset_throttled q2 key else q2
  setFlow q3 key { getFlow q3 key with time_next_packet := 0 }

/-- fq_classify.  allocOk models kmem_cache_zalloc success; on failure
the packet is routed to the internal flow and the allocation error
counted.  The smp_store_release of sk_pacing_status is an external side
effect with no observable state here.  On a hit with a real socket whose
sk_hash changed (endpoint reuse) fq_classify_reuse applies. -/
def fq_classify (p : Pkt) (jiffies : Nat) (allocOk : Bool) (q : fq_sched_data) :
    ClassifyRes × fq_sched_data :=
  if p.priority &&& TC_PRIO_MAX = TC_PRIO_CONTROL then (ClassifyRes.internal, q)
  else
    let key := classifyKey p q
    let q1 :=
      if 2 * 2 ^ q.fq_trees_log ≤ q.flows ∧ q.flows / 2 < q.inactive_flows then
        fq_gc jiffies key q
      else q
    match q1.flowsTbl.find? (fun f => f.sk == key) with
    | some f =>
      if classifyRealSk p && (f.socket_hash != p.sk_hash) then
        (ClassifyRes.flow key, fq_classify_reuse p key q1)
      else (ClassifyRes.flow key, q1)
    | none =>
      if allocOk then
        let nf : fq_flow :=
          { sk := key,
            socket_hash := if classifyRealSk p then p.sk_hash else 0,
            credit := Int.ofNat q1.initial_quantum,
            qlen := 0, time_next_packet := 0, fifo := [], t_root := [],
            detached := true, age := jiffies }
        (ClassifyRes.flow key,
         { q1 with flowsTbl := q1.flowsTbl ++ [nf],
                   flows := q1.flows + 1,
                   inactive_flows := q1.inactive_flows + 1 })
      else
        (ClassifyRes.internal,
         { q1 with stat_allocation_errors := q1.stat_allocation_errors + 1 })

/-- Result codes of fq_enqueue: NET_XMIT_SUCCESS, or qdisc_drop for the
three drop causes distinguished by the spec. -/
inductive EnqRes
  | success
  | dropTail
  | dropFlowLimit
  | dropHorizon
deriving DecidableEq, Repr

/-- fq_packet_beyond_horizon: (s64)skb->tstamp > (s64)(ktime_cache +
horizon); timestamps stay below 2^63 so the signed comparison is the
plain one. -/
def fq_packet_beyond_horizon (p : Pkt) (q : fq_sched_data) : Bool :=
  decide (q.ktime_cache + q.horizon < p.tstamp)

/-- The timestamping / horizon-policing prefix of fq_enqueue: a packet
without a timestamp gets time_to_send = now (refreshing the cached
clock); a packet beyond the cached horizon refreshes the clock and, if
still beyond, is either dropped (horizon_drop) or capped to now + horizon
with time_to_send following the (possibly capped) timestamp. -/
def fq_enqueue_stamp (p : Pkt) (now : Nat) (q : fq_sched_data) :
    Sum (EnqRes × fq_sched_data) (Pkt × fq_sched_data) :=
  if p.tstamp = 0 then
    Sum.inr ({ p with tts := now }, { q with ktime_cache := now })
  else if fq_packet_beyond_horizon p q then
    let q2 := { q with ktime_cache := now }
    if fq_packet_beyond_horizon p q2 then
      if q2.horizon_drop then
        Sum.inl (EnqRes.dropHorizon,
          { q2 with stat_horizon_drops := q2.stat_horizon_drops + 1 })
      else
        Sum.inr ({ p with tstamp := q2.ktime_cache + q2.horizon,
                          tts := q2.ktime_cache + q2.horizon },
                 { q2 with stat_horizon_caps := q2.stat_horizon_caps + 1 })
    else Sum.inr ({ p with tts := p.tstamp }, q2)
  else Sum.inr ({ p with tts := p.tstamp }, q)

/-- Read the flow fq_classify selected. -/
def getFlowE (q : fq_sched_data) (c : ClassifyRes) : fq_flow :=
  match c with
  | ClassifyRes.internal => q.internal
  | ClassifyRes.flow k => getFlow q k

/-- Write the flow fq_classify selected. -/
def setFlowE (q : fq_sched_data) (c : ClassifyRes) (f : fq_flow) : fq_sched_data :=
  match c with
  | ClassifyRes.internal => { q with internal := f }
  | ClassifyRes.flow k => setFlow q k f

/-- The key of a table flow (the internal flow sits outside the table and
is never detached, so the value for it is irrelevant). -/
def keyOfC (c : ClassifyRes) : Nat :=
  match c with
  | ClassifyRes.internal => 0
  | ClassifyRes.flow k => k

/-- The credit refill of the detached branch:
f->credit = max_t(u32, f->credit, q->quantum).  A negative credit casts
to a u32 of at least 2^31 which exceeds any valid quantum (at most 2^20),
so the assignment leaves a negative credit unchanged. -/
def creditRefill (f : fq_flow) (quantum : Nat) : fq_flow :=
  if f.credit < 0 then f else { f with credit := max f.credit (Int.ofNat quantum) }

/-- fq_enqueue after timestamping: classify, per-flow limit, detached
handling (add to new_flows, update the sport/dport globals, credit
refill after an idle period), then unconditionally overwrite the flow
socket_hash with skb_get_hash & orphan_mask, learn pFlowid[0]/pFlowid[1]
when the sport global equals the hard-coded ports 46730/46731, and queue
the packet into the flow. -/
def fq_enqueue_rest (p : Pkt) (jiffies : Nat) (allocOk : Bool) (q : fq_sched_data) :
    EnqRes × fq_sched_data :=
  let cq := fq_classify p jiffies allocOk q
  let c := cq.1
  let q1 := cq.2
  let f := getFlowE q1 c
  if q1.flow_plimit ≤ f.qlen ∧ c ≠ ClassifyRes.internal then
    (EnqRes.dropFlowLimit, { q1 with stat_flows_plimit := q1.stat_flows_plimit + 1 })
  else
    let f2 := { f with qlen := f.qlen + 1 }
    let fq3 :=
      if f2.detached then
        let q2 := { q1 with new_flows := fq_flow_add_tail q1.new_flows (keyOfC c),
                            gsport := p.sport, gdport := p.dport,
                            inactive_flows := q1.inactive_flows - 1 }
        let f3 := if f2.age + q1.flow_refill_delay < jiffies then creditRefill f2 q1.quantum else f2
        (f3, q2)
      else (f2, q1)
    let f3 := fq3.1
    let q2 := fq3.2
    let f4 := { f3 with socket_hash := p.skb_hash &&& q2.orphan_mask }
    let q3 := if q2.gsport = 46730 then { q2 with pFlowid0 := Int.ofNat f4.socket_hash } else q2
    let q4 := if q3.gsport = 46731 then { q3 with pFlowid1 := Int.ofNat f4.socket_hash } else q3
    let f5 := flow_queue_add f4 p
    let q5 := setFlowE q4 c f5
    let q6 :=
      if c = ClassifyRes.internal then
        { q5 with stat_internal_packets := q5.stat_internal_packets + 1 }
      else q5
    (EnqRes.success, { q6 with qlen := q6.qlen + 1 })

/-- fq_enqueue: tail-drop at the global limit, then timestamping /
horizon policing, then the classify-and-queue path. -/
def fq_enqueue (p : Pkt) (now jiffies : Nat) (allocOk : Bool) (q : fq_sched_data) :
    EnqRes × fq_sched_data :=
  if q.limit ≤ q.qlen then (EnqRes.dropTail, q)
  else
    match fq_enqueue_stamp p now q with
    | Sum.inl r => r
    | Sum.inr pq => fq_enqueue_rest pq.1 jiffies allocOk pq.2

/-- The three round-robin lists of the dequeue head pointer. -/
inductive ListId
  | lNew
  | lOld
  | lCo
deriving DecidableEq, Repr

def getList (q : fq_sched_data) : ListId → List Nat
  | ListId.lNew => q.new_flows
  | ListId.lOld => q.old_flows
  | ListId.lCo => q.co_flows

def setList (q : fq_sched_data) : ListId → List Nat → fq_sched_data
  | ListId.lNew, l => { q with new_flows := l }
  | ListId.lOld, l => { q with old_flows := l }
  | ListId.lCo, l => { q with co_flows := l }

/-- The head-list selection at the begin label of fq_dequeue: start at
co_flows when flipflag is set, else at new_flows; an empty choice falls
through to new_flows and then old_flows; all three empty means return
NULL (with a watchdog request when a throttled flow is pending). -/
def selectHead (q : fq_sched_data) : Option ListId :=
  let h0 : ListId := if q.flipflag then ListId.lCo else ListId.lNew
  if getList q h0 = [] then
    if q.new_flows = [] then
      if q.old_flows = [] then none else some ListId.lOld
    else some ListId.lNew
  else some h0

/-- Modelled from the spec: valuePresentInArray is declared in the
missing fqtest.h; it returns the index of the value in the two-element
pFlowid array, or -1 when absent (a flow is a co-flow iff its
socket_hash matches pFlowid[0] or pFlowid[1], section 4.8). -/
def valuePresentInArray (v : Nat) (a0 a1 : Int) : Int :=
  if a0 = Int.ofNat v then 0 else if a1 = Int.ofNat v then 1 else -1

/-- Modelled from the spec: Promotecoflows is declared in the missing
fqtest.h; co-flow promotion moves the flow at the head of the currently
selected list onto the tail of co_flows (section 4.6 step 6). -/
def Promotecoflows (q : fq_sched_data) (hid : ListId) : fq_sched_data :=
  match getList q hid with
  | [] => q
  | k :: rest =>
    let q1 := setList q hid rest
    { q1 with co_flows := fq_flow_add_tail q1.co_flows k }

/-- The pacing block guarded by rate != ~0UL: delay = plen * 10^9 / rate
clamped to one second (counting overlong packets), reduced by the timer
drift min(delay/2, now - time_next_packet) when a previous send time
exists, then time_next_packet = now + delay.  On the serving path now is
at least time_next_packet, so the u64 subtraction does not wrap. -/
def fq_rate_delay (now plen rate : Nat) (f : fq_flow) (q : fq_sched_data) :
    fq_flow × fq_sched_data :=
  if rate = INF64 then (f, q)
  else
    let len0 := plen * NSEC_PER_SEC
    let len1 := if rate ≠ 0 then len0 / rate else len0
    let len2 := if NSEC_PER_SEC < len1 then NSEC_PER_SEC else len1
    let q1 :=
      if NSEC_PER_SEC < len1 then
        { q with stat_pkts_too_long := q.stat_pkts_too_long + 1 }
      else q
    let len3 :=
      if f.time_next_packet ≠ 0 then len2 - min (len2 / 2) (now - f.time_next_packet)
      else len2
    ({ f with time_next_packet := now + len3 }, q1)

/-- The post-serve accounting of fq_dequeue: deduct the packet length
from the credit; when pacing is enabled take the flow rate (capped by
flow_max_rate, and by the socket pacing rate only for packets without an
EDT timestamp), zero the credit of low-rate flows, otherwise inflate the
effective length to a quantum and skip the timing update while credit
remains, then apply fq_rate_delay. -/
def fq_dequeue_post (now : Nat) (p : Pkt) (f : fq_flow) (q : fq_sched_data) :
    fq_flow × fq_sched_data :=
  let plen := p.len
  let f1 := { f with credit := f.credit - Int.ofNat plen }
  if !q.rate_enable then (f1, q)
  else
    let rate0 := q.flow_max_rate
    if p.tstamp = 0 then
      let rate1 :=
        match p.pacing_rate with
        | some r => min r rate0
        | none => rate0
      if rate1 ≤ q.low_rate_threshold then
        fq_rate_delay now plen rate1 { f1 with credit := 0 } q
      else
        let plen2 := max plen q.quantum
        if 0 < f1.credit then (f1, q)
        else fq_rate_delay now plen2 rate1 f1 q
    else fq_rate_delay now plen rate0 f1 q

/-- One pass of the begin loop of fq_dequeue: either loops (again) or
finishes (done) with an optional packet and an optional watchdog time. -/
inductive StepOut
  | again (q : fq_sched_data)
  | done (r : Option Pkt) (wd : Option Nat) (q : fq_sched_data)
deriving DecidableEq, Repr

/-- The tail of a begin-loop iteration, after the co-flow bookkeeping
has picked the state q1, the selected list hid with head flow key k and
remainder rest, and the head flow f: the credit gate, then peek: an
empty flow is pushed to old_flows or detached, a not-yet-ready flow is
throttled, and otherwise the packet is dequeued with CE marking and rate
accounting. -/
def fq_dequeue_step_serve (now jiffies : Nat) (q1 : fq_sched_data) (hid : ListId)
    (k : Nat) (rest : List Nat) (f : fq_flow) : StepOut :=
  if f.credit ≤ 0 then
    let q2 := setFlow (setList q1 hid rest) k
      { f with credit := f.credit + Int.ofNat q1.quantum }
    StepOut.again { q2 with old_flows := fq_flow_add_tail q2.old_flows k }
  else
    match fq_peek f with
    | some p =>
      let tnp := max p.tts f.time_next_packet
      if now < tnp then
        let q2 := setFlow (setList q1 hid rest) k { f with time_next_packet := tnp }
        StepOut.again (fq_flow_set_throttled q2 k)
      else
        let q2 :=
          if tnp + q1.ce_threshold < now then
            { q1 with stat_ce_mark := q1.stat_ce_mark + 1 }
          else q1
        let f2 := fq_dequeue_skb_flow f p
        let q3 := { setFlow q2 k f2 with qlen := q2.qlen - 1 }
        let fq4 := fq_dequeue_post now p f2 q3
        StepOut.done (some p) none (setFlow fq4.2 k fq4.1)
    | none =>
      let q2 := setList q1 hid rest
      if (hid = ListId.lNew ∨ hid = ListId.lCo) ∧ q2.old_flows ≠ [] then
        StepOut.again { q2 with old_flows := fq_flow_add_tail q2.old_flows k }
      else
        StepOut.again
          { setFlow q2 k (fq_flow_set_detached f jiffies) with
            inactive_flows := q2.inactive_flows + 1 }

/-- One iteration of the begin loop of fq_dequeue, in source order:
head-list selection (watchdog and NULL when everything is empty), co-flow
promotion, breach at ucounter == 2 off the co list, relief at
ucounter == 0 on the co list, the ucounter decrement when serving the co
list under flipflag, then the serving tail fq_dequeue_step_serve. -/
def fq_dequeue_step (now jiffies : Nat) (q : fq_sched_data) : StepOut :=
  match selectHead q with
  | none =>
    if q.time_next_delayed_flow ≠ INF64 then
      StepOut.done none (some q.time_next_delayed_flow) q
    else StepOut.done none none q
  | some hid =>
    match getList q hid with
    | [] => StepOut.done none none q
    | k :: rest =>
      let f := getFlow q k
      if valuePresentInArray f.socket_hash q.pFlowid0 q.pFlowid1 ≠ -1 ∧ hid ≠ ListId.lCo then
        let q1 := Promotecoflows q hid
        StepOut.again { q1 with ucounter := q1.ucounter + 1 }
      else if q.ucounter = 2 ∧ hid ≠ ListId.lCo then
        StepOut.again { q with flipflag := true }
      else if q.ucounter = 0 ∧ hid = ListId.lCo then
        StepOut.again { q with flipflag := false }
      else
        let q1 := if q.flipflag ∧ hid = ListId.lCo then { q with ucounter := q.ucounter - 1 } else q
        fq_dequeue_step_serve now jiffies q1 hid k rest f

/-- The begin loop of fq_dequeue, with explicit fuel; none means the fuel
ran out (the source loops via goto begin with no bound). -/
def fq_dequeue_loop (now jiffies : Nat) :
    Nat → fq_sched_data → Option (Option Pkt × Option Nat × fq_sched_data)
  | 0, _ => none
  | fuel + 1, q =>
    match fq_dequeue_step now jiffies q with
    | StepOut.done r wd q2 => some (r, wd, q2)
    | StepOut.again q2 => fq_dequeue_loop now jiffies fuel q2

/-- fq_dequeue: empty qdisc returns NULL; a queued internal packet is
returned immediately (high-priority bypass, before the clock is even
read); otherwise refresh the cached clock, release due throttled flows,
and run the begin loop. -/
def fq_dequeue (now jiffies fuel : Nat) (q : fq_sched_data) :
    Option (Option Pkt × Option Nat × fq_sched_data) :=
  if q.qlen = 0 then some (none, none, q)
  else
    match fq_peek q.internal with
    | some p =>
      some (some p, none,
        { q with internal := fq_dequeue_skb_flow q.internal p, qlen := q.qlen - 1 })
    | none =>
      let q1 := { q with ktime_cache := now }
      let q2 := fq_check_throttled q1 now
      fq_dequeue_loop now jiffies fuel q2

/-- The netlink attribute blob accepted by fq_change, after
nla_parse_nested_deprecated: one optional value per TCA_FQ_* attribute. -/
structure FqOpts where
  plimit : Option Nat
  flow_plimit : Option Nat
  quantum : Option Nat
  initial_quantum : Option Nat
  rate_enable : Option Nat
  flow_default_rate : Option Nat
  flow_max_rate : Option Nat
  buckets_log : Option Nat
  flow_refill_delay : Option Nat
  orphan_mask : Option Nat
  low_rate_threshold : Option Nat
  ce_threshold : Option Nat
  timer_slack : Option Nat
  horizon : Option Nat
  horizon_drop : Option Nat
  f1_sourceport : Option Nat
  f2_sourceport : Option Nat
  f1_destport : Option Nat
  f2_destport : Option Nat
deriving DecidableEq, Repr

/-- fq_resize: nothing to do when the log is unchanged; otherwise rehash
into a fresh array, dropping gc candidates along the way (fq_rehash). -/
def fq_resize (jiffies log : Nat) (q : fq_sched_data) : fq_sched_data :=
  if log = q.fq_trees_log then q
  else
    let keep := q.flowsTbl.filter (fun f => !(fq_gc_candidate jiffies f))
    let dropped := q.flowsTbl.length - keep.length
    { q with flowsTbl := keep, fq_trees_log := log,
             flows := q.flows - dropped,
             inactive_flows := q.inactive_flows - dropped,
             stat_gc_flows := q.stat_gc_flows + dropped }

/-- The drop-down loop at the end of fq_change: while the queue exceeds
the (possibly new) limit, dequeue and free packets, stopping on NULL. -/
def fq_change_drops (now jiffies dqFuel : Nat) :
    Nat → fq_sched_data → fq_sched_data
  | 0, q => q
  | fuel + 1, q =>
    if q.limit < q.qlen then
      match fq_dequeue now jiffies dqFuel q with
      | some (some _, _, q2) => fq_change_drops now jiffies dqFuel fuel q2
      | some (none, _, q2) => q2
      | none => q
    else q

/-- fq_change: validate buckets_log (1..ilog2(256*1024) = 18), quantum
(1..2^20) and rate_enable (0..1), applying every present attribute to
the live state in source order regardless of a validation error on
another attribute; only the table resize is gated on err == 0.  Returns
the error code (-EINVAL = -22 on a validation failure) together with the
final state after the drop-down loop. -/
def fq_change (o : FqOpts) (now jiffies dqFuel dropFuel : Nat) (q : fq_sched_data) :
    Int × fq_sched_data :=
  let el1 : Int × Nat :=
    match o.buckets_log with
    | some v => if 1 ≤ v ∧ v ≤ 18 then (0, v) else (-22, q.fq_trees_log)
    | none => (0, q.fq_trees_log)
  let q1 := match o.plimit with | some v => { q with limit := v } | none => q
  let q2 := match o.flow_plimit with | some v => { q1 with flow_plimit := v } | none => q1
  let eq3 : Int × fq_sched_data :=
    match o.quantum with
    | some v => if 0 < v ∧ v ≤ 1048576 then (el1.1, { q2 with quantum := v }) else (-22, q2)
    | none => (el1.1, q2)
  let q4 := match o.initial_quantum with
    | some v => { eq3.2 with initial_quantum := v }
    | none => eq3.2
  let q5 := match o.flow_max_rate with
    | some v => { q4 with flow_max_rate := if v = 4294967295 then INF64 else v }
    | none => q4
  let q6 := match o.low_rate_threshold with
    | some v => { q5 with low_rate_threshold := v }
    | none => q5
  let eq7 : Int × fq_sched_data :=
    match o.rate_enable with
    | some v => if v ≤ 1 then (eq3.1, { q6 with rate_enable := v == 1 }) else (-22, q6)
    | none => (eq3.1, q6)
  let q8 := match o.flow_refill_delay with
    | some v => { eq7.2 with flow_refill_delay := usecs_to_jiffies v }
    | none => eq7.2
  let q9 := match o.orphan_mask with | some v => { q8 with orphan_mask := v } | none => q8
  let q10 := match o.ce_threshold with
    | some v => { q9 with ce_threshold := NSEC_PER_USEC * v }
    | none => q9
  let q11 := match o.timer_slack with | some v => { q10 with timer_slack := v } | none => q10
  let q12 := match o.horizon with
    | some v => { q11 with horizon := NSEC_PER_USEC * v }
    | none => q11
  let q13 := match o.horizon_drop with
    | some v => { q12 with horizon_drop := !(v == 0) }
    | none => q12
  let q14 := match o.f1_sourceport with | some v => { q13 with f1_sourceport := v } | none => q13
  let q15 := match o.f2_sourceport with | some v => { q14 with f2_sourceport := v } | none => q14
  let q16 := match o.f1_destport with | some v => { q15 with f1_destport := v } | none => q15
  let q17 := match o.f2_destport with | some v => { q16 with f2_destport := v } | none => q16
  let q18 := if eq7.1 = 0 then fq_resize jiffies el1.2 q17 else q17
  (eq7.1, fq_change_drops now jiffies dqFuel dropFuel q18)

/-- The defaults installed by fq_init before any fq_change, for a device
with the given MTU.  The trailing module globals live in fqtest.h: they
are zero-initialised at module load but are NOT reset by fq_init or
fq_reset and are shared by every qdisc instance. -/
def initState (mtu : Nat) : fq_sched_data :=
  { flowsTbl := [], internal := flowDefault, new_flows := [], old_flows := [],
    co_flows := [], delayed := [], time_next_delayed_flow := INF64,
    qlen := 0, limit := 10000, flow_plimit := 100, quantum := 2 * mtu,
    initial_quantum := 10 * mtu, flow_refill_delay := msecs_to_jiffies 40,
    flow_max_rate := INF64, low_rate_threshold := 550000 / 8,
    rate_enable := true, orphan_mask := 1023,
    ce_threshold := NSEC_PER_USEC * 4294967295,
    timer_slack := 10 * NSEC_PER_USEC, horizon := 10 * NSEC_PER_SEC,
    horizon_drop := true, fq_trees_log := 10,
    f1_sourceport := 0, f2_sourceport := 0, f1_destport := 0, f2_destport := 0,
    ktime_cache := 0, flows := 0, inactive_flows := 0, throttled_flows := 0,
    stat_gc_flows := 0, stat_internal_packets := 0, stat_throttled := 0,
    stat_flows_plimit := 0, stat_pkts_too_long := 0, stat_allocation_errors := 0,
    stat_ce_mark := 0, stat_horizon_drops := 0, stat_horizon_caps := 0,
    unthrottle_latency_ns := 0,
    pFlowid0 := 0, pFlowid1 := 0, ucounter := 0, flipflag := false,
    gsport := 0, gdport := 0 }

/- Concrete packets and states used by the counterexamples and witnesses
below.  All numbers are small; the MTU of initState is 100. -/

def pkt0 : Pkt :=
  { len := 1, tstamp := 0, tts := 0, priority := 0, sk := none,
    sk_hash := 0, sk_listener := false, sk_tcp_close := false, skb_hash := 0,
    sport := 0, dport := 0, pacing_rate := none }

def fdC1 : fq_flow :=
  { flowDefault with
    sk := 4, socket_hash := 9, credit := 100, detached := true }

/-- A scheduler configured with f1_sourceport = 1000, holding one
detached flow with key 4 and socket_hash 9, and unset pFlowid. -/
def qC1 : fq_sched_data :=
  { initState 100 with
    flowsTbl := [fdC1], flows := 1, inactive_flows := 1,
    f1_sourceport := 1000, pFlowid0 := -1, pFlowid1 := -1, rate_enable := false }

/-- A packet of the flow with key 4 whose source port is 46730 (not the
configured f1_sourceport of qC1). -/
def pC1 : Pkt :=
  { pkt0 with
    sk := some 4, sk_hash := 9, skb_hash := 9, sport := 46730, dport := 1 }

/-- Claim C1, counterexample: enqueueing a packet with source port 46730
into a detached flow updates pFlowid[0] even though the configured
f1_sourceport is 1000; the identifiers are learned from the hard-coded
ports, not from the configured ones, so the update does not happen
exactly when the source port equals f1_source. -/
theorem c1_counterexample :
    (fq_enqueue pC1 5 0 true qC1).1 = EnqRes.success ∧
    (getFlow qC1 4).detached = true ∧
    (fq_enqueue pC1 5 0 true qC1).2.pFlowid0 = Int.ofNat 9 ∧
    qC1.pFlowid0 = -1 ∧ pC1.sport ≠ qC1.f1_sourceport := by decide

/-- Like qC1 but with pFlowid[0] already equal to the flow socket_hash
and the co-flow ports left at their defaults. -/
def qC5 : fq_sched_data :=
  { qC1 with
    pFlowid0 := Int.ofNat 9, f1_sourceport := 0 }

/-- Claim C5, counterexample: a successful enqueue into a detached flow
whose socket_hash equals the learned co-flow identifier pFlowid[0] still
pushes the flow onto new_flows and leaves co_flows empty (the co_flows
placement at enqueue is commented out in the source). -/
theorem c5_counterexample :
    (fq_enqueue pC1 5 0 true qC5).1 = EnqRes.success ∧
    (getFlow qC5 4).detached = true ∧
    Int.ofNat (getFlow qC5 4).socket_hash = qC5.pFlowid0 ∧
    (fq_enqueue pC1 5 0 true qC5).2.co_flows = [] ∧
    (fq_enqueue pC1 5 0 true qC5).2.new_flows = [4] := by decide

def fB : fq_flow :=
  { flowDefault with
    sk := 2, socket_hash := 5, credit := 1, qlen := 1, fifo := [pkt0] }

/-- The hanging dequeue state: ucounter = 2 and flipflag set while
co_flows is empty and new_flows holds a ready non-co flow.  Such a state
arises because ucounter / flipflag are module globals: an instance can
park ucounter at 2 with the two promoted flows in co_flows (by promoting
twice and returning NULL), and a qdisc reset or a second qdisc instance
then sees empty lists with the globals unchanged. -/
def sB : fq_sched_data :=
  { initState 100 with
    flowsTbl := [fB], flows := 1, new_flows := [2], qlen := 1, ucounter := 2,
    flipflag := true, pFlowid0 := 7, pFlowid1 := 8, ktime_cache := 5,
    rate_enable := false }

/-- One pass of the begin loop from sB reproduces sB: the breach branch
fires (ucounter = 2 off the co list), sets the already-set flipflag and
loops. -/
theorem fq_dequeue_step_sB : fq_dequeue_step 5 0 sB = StepOut.again sB := by decide

theorem fq_dequeue_loop_sB : ∀ n : Nat, fq_dequeue_loop 5 0 n sB = none := by
  intro n
  induction n with
  | zero => rfl
  | succ n ih =>
    rw [fq_dequeue_loop, fq_dequeue_step_sB]
    exact ih

/-- Claim C2: the begin loop of fq_dequeue does not terminate from the
reachable state sB (one queued, ready, non-co flow on new_flows while the
global ucounter is 2 and co_flows is empty): however much fuel the loop
is given, it keeps re-running the breach branch and never returns. -/
theorem c2_nonterm : ∀ fuel : Nat, fq_dequeue 5 0 fuel sB = none := by
  intro fuel
  have h : fq_dequeue 5 0 fuel sB = fq_dequeue_loop 5 0 fuel sB := rfl
  rw [h]
  exact fq_dequeue_loop_sB fuel

def p3a : Pkt := { pkt0 with skb_hash := 1 }

def f3a : fq_flow :=
  { flowDefault with
    sk := 2, socket_hash := 7, credit := 5, qlen := 1, fifo := [p3a] }

def f3b : fq_flow :=
  { f3a with
    sk := 4, fifo := [{ p3a with skb_hash := 2 }] }

def f3c : fq_flow :=
  { f3a with
    sk := 6, socket_hash := 8, fifo := [{ p3a with skb_hash := 3 }] }

/-- Three backlogged co-flows (hashes 7, 7, 8 against pFlowid = [7, 8])
waiting on new_flows, with ucounter = 0 and flipflag clear. -/
def s3 : fq_sched_data :=
  { initState 100 with
    flowsTbl := [f3a, f3b, f3c], flows := 3, new_flows := [2, 4, 6], qlen := 3,
    pFlowid0 := 7, pFlowid1 := 8, rate_enable := false }

/-- Claim C3, counterexample: from s3 a single dequeue performs three
consecutive promotions (the third fires before the breach check while
ucounter is already 2), returns NULL, and leaves ucounter = 3 with
flipflag still clear although every co-flow packet is ready: after two
promotions, no co-class serving at all is granted before the scheduler
returns to the regular discipline, and the breach never triggers. -/
theorem c3_counterexample :
    (fq_dequeue 100 0 10 s3).map (fun r => (r.1, r.2.1)) = some (none, none) ∧
    (fq_dequeue 100 0 10 s3).map (fun r => (r.2.2.ucounter, r.2.2.flipflag, r.2.2.co_flows)) =
      some (3, false, [2, 4, 6]) ∧
    s3.ucounter = 0 ∧ s3.flipflag = false ∧
    (f3a.fifo.all (fun pk => decide (pk.tts ≤ 100)) = true) ∧
    (f3b.fifo.all (fun pk => decide (pk.tts ≤ 100)) = true) ∧
    (f3c.fifo.all (fun pk => decide (pk.tts ≤ 100)) = true) := by decide

def pHi : Pkt := { pkt0 with tts := 100, priority := 7 }

/-- A scheduler whose internal high-priority flow holds a packet with
time_to_send = 100. -/
def sInt : fq_sched_data :=
  { initState 100 with
    internal := { flowDefault with fifo := [pHi], qlen := 1 }, qlen := 1 }

def sInt2 : fq_sched_data :=
  { sInt with
    internal := flowDefault, qlen := 0 }

/-- Claim C6, counterexample: at time now = 0 the dequeue returns the
internal flow packet whose time_to_send is 100: packets of the internal
high-priority flow are returned before their time_to_send. -/
theorem c6_counterexample :
    fq_dequeue 0 0 3 sInt = some (some pHi, none, sInt2) ∧ ¬ pHi.tts ≤ 0 := by decide

def f7 : fq_flow := { flowDefault with sk := 2, time_next_packet := 50 }

/-- One throttled flow with time_next_packet = 50 and
time_next_delayed_flow = 50. -/
def q7 : fq_sched_data :=
  { initState 100 with
    flowsTbl := [f7], flows := 1, delayed := [2], throttled_flows := 1,
    time_next_delayed_flow := 50 }

/-- Claim C7, counterexample: removing the only throttled flow through
fq_flow_unset_throttled (as the endpoint-reuse path of fq_classify does)
leaves time_next_delayed_flow at 50 although the ThrottleTree is now
empty, so the field is not the minimum over the tree (which would be the
all-ones +infinity). -/
theorem c7_counterexample :
    (fq_flow_unset_throttled q7 2).delayed = [] ∧
    (fq_flow_unset_throttled q7 2).time_next_delayed_flow = 50 ∧
    (50 : Nat) ≠ INF64 := by decide

def p100 : Pkt := { pkt0 with tts := 100 }

def p50 : Pkt := { pkt0 with tts := 50, skb_hash := 1 }

def f9 : fq_flow := { flowDefault with fifo := [p100], qlen := 1 }

/-- Claim C9, counterexample: a peek returns time_to_send 100, then an
interleaved enqueue of a packet with time_to_send 50 makes the next peek
return 50: successive peeks are not non-decreasing under arbitrary
interleaved enqueues. -/
theorem c9_counterexample :
    fq_peek f9 = some p100 ∧
    fq_peek (flow_queue_add f9 p50) = some p50 ∧ p50.tts < p100.tts := by decide

/-- State carried by a step outcome. -/
def stepStateOf : StepOut → fq_sched_data
  | StepOut.again q => q
  | StepOut.done _ _ q => q

lemma setList_ucounter (q : fq_sched_data) (i : ListId) (l : List Nat) :
    (setList q i l).ucounter = q.ucounter := by cases i <;> rfl

lemma fq_rate_delay_ucounter (now plen rate : Nat) (f : fq_flow) (q : fq_sched_data) :
    (fq_rate_delay now plen rate f q).2.ucounter = q.ucounter := by
  simp only [fq_rate_delay]
  split
  · rfl
  · by_cases h2 : NSEC_PER_SEC < (if rate ≠ 0 then plen * NSEC_PER_SEC / rate else plen * NSEC_PER_SEC)
    · simp only [if_pos h2]
    · simp only [if_neg h2]

lemma fq_dequeue_post_ucounter (now : Nat) (p : Pkt) (f : fq_flow) (q : fq_sched_data) :
    (fq_dequeue_post now p f q).2.ucounter = q.ucounter := by
  simp only [fq_dequeue_post]
  split
  · rfl
  · split
    · split
      · exact fq_rate_delay_ucounter ..
      · split
        · rfl
        · exact fq_rate_delay_ucounter ..
    · exact fq_rate_delay_ucounter ..

lemma fq_dequeue_step_serve_ucounter (now jiffies : Nat) (q1 : fq_sched_data) (hid : ListId)
    (k : Nat) (rest : List Nat) (f : fq_flow) :
    (stepStateOf (fq_dequeue_step_serve now jiffies q1 hid k rest f)).ucounter = q1.ucounter := by
  simp only [fq_dequeue_step_serve]
  split
  · cases hid <;> rfl
  · split
    · split
      · cases hid <;> rfl
      · simp only [stepStateOf]
        rw [show (setFlow (fq_dequeue_post now _ _ _).2 k (fq_dequeue_post now _ _ _).1).ucounter
              = ((fq_dequeue_post now _ _ _ : fq_flow × fq_sched_data)).2.ucounter from rfl]
        rw [fq_dequeue_post_ucounter]
        split
        · cases hid <;> rfl
        · cases hid <;> rfl
    · split
      · cases hid <;> rfl
      · cases hid <;> rfl

/-- Claim C3, amended: the breach does set flipflag when ucounter is 2
off the co list, but only if the head flow is not itself co-matching
(promotion is checked first, so a third promotion can push ucounter past
2 and the breach never fires, as c3_counterexample shows); relief clears
flipflag when ucounter is 0 on the co list; and a pass that selects the
co list under flipflag with nonzero ucounter decrements ucounter whether
or not a packet is actually served (the credit gate, throttling or a
drained flow also consume a decrement), so no exact 2:N serving
interleaving follows. -/
theorem c3_amended (now jiffies : Nat) (q : fq_sched_data) (hid : ListId) (k : Nat)
    (rest : List Nat)
    (hsel : selectHead q = some hid) (hk : getList q hid = k :: rest) :
    (hid ≠ ListId.lCo →
       valuePresentInArray (getFlow q k).socket_hash q.pFlowid0 q.pFlowid1 = -1 →
       q.ucounter = 2 →
       fq_dequeue_step now jiffies q = StepOut.again { q with flipflag := true }) ∧
    (hid = ListId.lCo → q.ucounter = 0 →
       fq_dequeue_step now jiffies q = StepOut.again { q with flipflag := false }) ∧
    (hid = ListId.lCo → q.flipflag = true → q.ucounter ≠ 0 →
       (stepStateOf (fq_dequeue_step now jiffies q)).ucounter = q.ucounter - 1) := by
  refine ⟨?_, ?_, ?_⟩
  · intro hne hm hu
    simp only [fq_dequeue_step, hsel, hk, hm, hu]
    simp [hne]
  · intro hco hu
    subst hco
    simp only [fq_dequeue_step, hsel, hk, hu]
    simp
  · intro hco hflip hu
    subst hco
    simp only [fq_dequeue_step, hsel, hk]
    rw [if_neg (fun hc => hc.2 rfl), if_neg (fun hc => hc.2 rfl),
        if_neg (fun hc => hu hc.1), if_pos ⟨hflip, trivial⟩]
    rw [fq_dequeue_step_serve_ucounter]

/-- Claim C3, witness: from the concrete state sB (head of new_flows not
co-matching, ucounter = 2) the breach fires and sets flipflag. -/
theorem c3_witness :
    fq_dequeue_step 5 0 sB = StepOut.again { sB with flipflag := true } :=
  (c3_amended 5 0 sB ListId.lNew 2 [] (by decide) (by decide)).1
    (by decide) (by decide) (by decide)

lemma fq_dequeue_step_serve_tts (now jiffies : Nat) (q1 : fq_sched_data) (hid : ListId)
    (k : Nat) (rest : List Nat) (f : fq_flow) (p : Pkt) (wd : Option Nat) (q2 : fq_sched_data)
    (h : fq_dequeue_step_serve now jiffies q1 hid k rest f = StepOut.done (some p) wd q2) :
    p.tts ≤ now := by
  simp only [fq_dequeue_step_serve] at h
  split at h
  · exact StepOut.noConfusion h
  · split at h
    · rename_i p2 hpk
      split at h
      · exact StepOut.noConfusion h
      · rename_i hnl
        injection h with h1 h2 h3
        injection h1 with h1
        subst h1
        exact le_trans (le_max_left _ _) (Nat.not_lt.mp hnl)
    · split at h
      · exact StepOut.noConfusion h
      · exact StepOut.noConfusion h

lemma fq_dequeue_step_tts (now jiffies : Nat) (q : fq_sched_data) (p : Pkt)
    (wd : Option Nat) (q2 : fq_sched_data)
    (h : fq_dequeue_step now jiffies q = StepOut.done (some p) wd q2) : p.tts ≤ now := by
  simp only [fq_dequeue_step] at h
  split at h
  · split at h
    · exact Option.noConfusion (StepOut.done.inj h).1
    · exact Option.noConfusion (StepOut.done.inj h).1
  · split at h
    · exact Option.noConfusion (StepOut.done.inj h).1
    · split at h
      · exact StepOut.noConfusion h
      · split at h
        · exact StepOut.noConfusion h
        · split at h
          · exact StepOut.noConfusion h
          · exact fq_dequeue_step_serve_tts _ _ _ _ _ _ _ _ _ _ h

lemma fq_dequeue_loop_tts (now jiffies : Nat) :
    ∀ (fuel : Nat) (q : fq_sched_data) (p : Pkt) (wd : Option Nat) (q2 : fq_sched_data),
    fq_dequeue_loop now jiffies fuel q = some (some p, wd, q2) → p.tts ≤ now := by
  intro fuel
  induction fuel with
  | zero => intro q p wd q2 h; exact Option.noConfusion h
  | succ n ih =>
    intro q p wd q2 h
    rw [fq_dequeue_loop] at h
    cases hs : fq_dequeue_step now jiffies q with
    | done r w qr =>
      rw [hs] at h
      injection h with h1
      injection h1 with hr h2
      exact fq_dequeue_step_tts now jiffies q p w qr (hr ▸ hs)
    | again qr =>
      rw [hs] at h
      exact ih qr p wd q2 h

/-- Claim C6, amended: every packet returned by the round-robin begin
loop of fq_dequeue (that is, any packet not coming from the internal
high-priority flow, which bypasses the check as c6_counterexample shows)
is returned no earlier than its time_to_send: the serving branch insists
on now >= max(time_to_send, time_next_packet) and otherwise throttles
the flow. -/
theorem c6_amended (now jiffies fuel : Nat) (q : fq_sched_data) (p : Pkt)
    (wd : Option Nat) (q2 : fq_sched_data)
    (hint : fq_peek q.internal = none)
    (h : fq_dequeue now jiffies fuel q = some (some p, wd, q2)) : p.tts ≤ now := by
  unfold fq_dequeue at h
  split at h
  · exact Option.noConfusion ((Prod.mk.injEq .. ▸ Option.some.inj h).1)
  · rw [hint] at h
    exact fq_dequeue_loop_tts now jiffies fuel _ p wd q2 h

/-- The single-ready-flow state used by the C6 witness. -/
def stA : fq_sched_data :=
  { initState 100 with
    flowsTbl := [fB], flows := 1, new_flows := [2], qlen := 1, rate_enable := false }

def stA2 : fq_sched_data :=
  { stA with
    flowsTbl := [{ fB with credit := 0, qlen := 0, fifo := [] }],
    qlen := 0, ktime_cache := 10 }

/-- Claim C6, witness: the concrete dequeue from stA at now = 10 returns
the queued packet, whose time_to_send 0 is indeed at most 10. -/
theorem c6_witness : pkt0.tts ≤ 10 :=
  c6_amended 10 0 5 stA pkt0 none stA2 (by decide) (by decide)

/-- The minimum time_next_packet over the delayed tree, all-ones when
the tree is empty. -/
def delayedMin (q : fq_sched_data) : Nat := (q.delayed.map (getTnp q)).foldr min INF64

/-- time_next_delayed_flow is a lower bound on the delayed tree. -/
def tndfLB (q : fq_sched_data) : Prop := q.time_next_delayed_flow ≤ delayedMin q

/-- The delayed tree is sorted by time_next_packet ascending. -/
def delayedSorted (q : fq_sched_data) : Prop :=
  q.delayed.Pairwise (fun a b => getTnp q a ≤ getTnp q b)

/-- Every throttled time_next_packet fits in a u64. -/
def delayedBounded (q : fq_sched_data) : Prop := ∀ x ∈ q.delayed, getTnp q x ≤ INF64

instance (q : fq_sched_data) : Decidable (tndfLB q) :=
  inferInstanceAs (Decidable (q.time_next_delayed_flow ≤ delayedMin q))

instance (q : fq_sched_data) : Decidable (delayedSorted q) :=
  inferInstanceAs (Decidable (q.delayed.Pairwise _))

instance (q : fq_sched_data) : Decidable (delayedBounded q) :=
  inferInstanceAs (Decidable (∀ x ∈ q.delayed, getTnp q x ≤ INF64))

lemma foldrMin_sublist {l1 l2 : List Nat} (h : l1.Sublist l2) :
    l2.foldr min INF64 ≤ l1.foldr min INF64 := by
  induction h with
  | slnil => exact le_refl _
  | cons a _ ih => exact le_trans (min_le_right _ _) ih
  | cons₂ a _ ih => exact min_le_min (le_refl _) ih

lemma le_foldrMin {a : Nat} {l : List Nat} (hb : a ≤ INF64) (h : ∀ v ∈ l, a ≤ v) :
    a ≤ l.foldr min INF64 := by
  induction l with
  | nil => exact hb
  | cons x xs ih =>
    exact le_min (h x (List.mem_cons_self x xs)) (ih fun v hv => h v (List.mem_cons_of_mem _ hv))

lemma delayedInsert_map_foldr (q : fq_sched_data) (k : Nat) (l : List Nat) :
    ((delayedInsert q k l).map (getTnp q)).foldr min INF64 =
      min (getTnp q k) ((l.map (getTnp q)).foldr min INF64) := by
  induction l with
  | nil => simp [delayedInsert]
  | cons x xs ih =>
    simp only [delayedInsert]
    split
    · simp only [List.map_cons, List.foldr_cons, ih]
      rw [min_left_comm]
    · simp [List.map_cons, List.foldr_cons]

lemma mem_delayedInsert {q : fq_sched_data} {k x : Nat} {l : List Nat}
    (h : x ∈ delayedInsert q k l) : x ∈ l ∨ x = k := by
  induction l with
  | nil =>
    simp only [delayedInsert, List.mem_singleton] at h
    exact Or.inr h
  | cons y ys ih =>
    simp only [delayedInsert] at h
    split at h
    · rcases List.mem_cons.mp h with hy | hrest
      · exact Or.inl (hy ▸ List.mem_cons_self y ys)
      · rcases ih hrest with hl | hk
        · exact Or.inl (List.mem_cons_of_mem _ hl)
        · exact Or.inr hk
    · rcases List.mem_cons.mp h with hk | hl
      · exact Or.inr hk
      · exact Or.inl hl

lemma delayedInsert_sorted (q : fq_sched_data) (k : Nat) {l : List Nat}
    (h : l.Pairwise (fun a b => getTnp q a ≤ getTnp q b)) :
    (delayedInsert q k l).Pairwise (fun a b => getTnp q a ≤ getTnp q b) := by
  induction l with
  | nil => simp [delayedInsert]
  | cons x xs ih =>
    rcases List.pairwise_cons.mp h with ⟨hx, hxs⟩
    simp only [delayedInsert]
    split
    · rename_i hle
      refine List.pairwise_cons.mpr ⟨?_, ih hxs⟩
      intro y hy
      rcases mem_delayedInsert hy with hyl | hyk
      · exact hx y hyl
      · exact hyk ▸ hle
    · rename_i hgt
      refine List.pairwise_cons.mpr ⟨?_, h⟩
      intro y hy
      rcases List.mem_cons.mp hy with hyx | hyxs
      · exact hyx ▸ le_of_lt (Nat.not_le.mp hgt)
      · exact le_trans (le_of_lt (Nat.not_le.mp hgt)) (hx y hyxs)

lemma fq_check_scan_inv (now : Nat) :
    ∀ (l : List Nat) (q : fq_sched_data), q.delayed = l →
      q.time_next_delayed_flow = INF64 →
      delayedSorted q → delayedBounded q →
      tndfLB (fq_check_scan now l q) ∧ delayedSorted (fq_check_scan now l q) := by
  intro l
  induction l with
  | nil =>
    intro q hd ht hs _
    refine ⟨?_, hs⟩
    show q.time_next_delayed_flow ≤ delayedMin q
    rw [ht]
    unfold delayedMin
    rw [hd]
    exact le_refl _
  | cons k rest ih =>
    intro q hd ht hs hb
    simp only [fq_check_scan]
    split
    · constructor
      · show getTnp q k ≤ delayedMin _
        unfold delayedMin
        rw [show ({ q with time_next_delayed_flow := getTnp q k } : fq_sched_data).delayed
              = q.delayed from rfl, hd]
        simp only [List.map_cons, List.foldr_cons]
        refine le_min (le_refl _) (le_foldrMin (hb k (hd ▸ List.mem_cons_self k rest)) ?_)
        intro v hv
        rcases List.mem_map.mp hv with ⟨y, hy, rfl⟩
        have hp := List.pairwise_cons.mp (show (k :: rest).Pairwise
          (fun a b => getTnp q a ≤ getTnp q b) from hd ▸ hs)
        exact hp.1 y hy
      · exact hs
    · apply ih
      · show (fq_flow_unset_throttled q k).delayed = rest
        show q.delayed.erase k = rest
        rw [hd]
        exact List.erase_cons_head k rest
      · exact ht
      · show (q.delayed.erase k).Pairwise _
        exact List.Pairwise.sublist (List.erase_sublist k q.delayed) hs
      · intro x hx
        show getTnp q x ≤ INF64
        exact hb x (List.Sublist.mem hx (List.erase_sublist k q.delayed))



/-- Claim C7, amended: time_next_delayed_flow is a lower bound on (not
always equal to) the minimum time_next_packet over the ThrottleTree:
fq_flow_set_throttled lowers it alongside the insertion and
fq_check_throttled recomputes it exactly, but fq_flow_unset_throttled
(used by the endpoint-reuse path of classify) removes a flow without
raising it, as c7_counterexample shows, so after a removal the field may
sit below the true minimum (or below +infinity on an empty tree).  The
three cited tree operations each preserve the lower bound and keep the
tree sorted by time_next_packet. -/
theorem c7_amended (q : fq_sched_data) (k now : Nat)
    (hs : delayedSorted q) (hb : delayedBounded q) (hlb : tndfLB q) :
    (tndfLB (fq_flow_set_throttled q k) ∧ delayedSorted (fq_flow_set_throttled q k)) ∧
    (tndfLB (fq_flow_unset_throttled q k) ∧ delayedSorted (fq_flow_unset_throttled q k)) ∧
    (tndfLB (fq_check_throttled q now) ∧ delayedSorted (fq_check_throttled q now)) := by
  refine ⟨⟨?_, ?_⟩, ⟨?_, ?_⟩, ?_⟩
  · show min q.time_next_delayed_flow (getTnp q k) ≤ delayedMin (fq_flow_set_throttled q k)
    have he : delayedMin (fq_flow_set_throttled q k) =
        ((delayedInsert q k q.delayed).map (getTnp q)).foldr min INF64 := rfl
    rw [he, delayedInsert_map_foldr]
    exact le_min (min_le_right _ _) (le_trans (min_le_left _ _) hlb)
  · show (delayedInsert q k q.delayed).Pairwise _
    exact delayedInsert_sorted q k hs
  · show q.time_next_delayed_flow ≤ delayedMin (fq_flow_unset_throttled q k)
    have he : delayedMin (fq_flow_unset_throttled q k) =
        ((q.delayed.erase k).map (getTnp q)).foldr min INF64 := rfl
    rw [he]
    exact le_trans hlb (foldrMin_sublist (List.Sublist.map _ (List.erase_sublist k q.delayed)))
  · show ((q.delayed.erase k).Pairwise _)
    exact List.Pairwise.sublist (List.erase_sublist k q.delayed) hs
  · unfold fq_check_throttled
    split
    · exact ⟨hlb, hs⟩
    · apply fq_check_scan_inv
      · rfl
      · rfl
      · exact hs
      · exact hb



/-- All packets queued in a flow: the fifo chain and the t_root tree. -/
def flowPkts (f : fq_flow) : List Pkt := f.fifo ++ f.t_root

/-- The fifo chain is in non-decreasing time_to_send order. -/
def fifoSorted (f : fq_flow) : Prop := f.fifo.Pairwise (fun a b => a.tts ≤ b.tts)

/-- The t_root tree is in non-decreasing time_to_send order. -/
def edtSorted (f : fq_flow) : Prop := f.t_root.Pairwise (fun a b => a.tts ≤ b.tts)

instance (f : fq_flow) : Decidable (fifoSorted f) :=
  inferInstanceAs (Decidable (f.fifo.Pairwise _))

instance (f : fq_flow) : Decidable (edtSorted f) :=
  inferInstanceAs (Decidable (f.t_root.Pairwise _))

lemma fq_peek_mem {f : fq_flow} {p : Pkt} (h : fq_peek f = some p) : p ∈ flowPkts f := by
  unfold fq_peek at h
  unfold flowPkts
  rcases ht : f.t_root with _ | ⟨s, sr⟩ <;> rcases hf : f.fifo with _ | ⟨a, ar⟩ <;>
      rw [ht, hf] at h <;>
      simp only [List.head?_nil, List.head?_cons] at h
  · exact Option.noConfusion h
  · injection h with h
    subst h
    simp
  · injection h with h
    subst h
    simp
  · split at h <;> (injection h with h; subst h; simp)

lemma fq_peek_min {f : fq_flow} {p : Pkt} (hf : fifoSorted f) (he : edtSorted f)
    (h : fq_peek f = some p) : ∀ x ∈ flowPkts f, p.tts ≤ x.tts := by
  intro x hx
  unfold fq_peek at h
  unfold flowPkts at hx
  unfold fifoSorted at hf
  unfold edtSorted at he
  rcases ht : f.t_root with _ | ⟨s, sr⟩ <;> rcases hfi : f.fifo with _ | ⟨a, ar⟩ <;>
      rw [ht, hfi] at h hx <;> rw [ht] at he <;> rw [hfi] at hf <;>
      simp only [List.head?_nil, List.head?_cons] at h <;>
      simp only [List.append_nil, List.nil_append, List.mem_append] at hx
  · exact Option.noConfusion h
  · injection h with h
    subst h
    rcases List.mem_cons.mp hx with rfl | hx2
    · exact le_refl _
    · exact (List.pairwise_cons.mp hf).1 x hx2
  · injection h with h
    subst h
    rcases List.mem_cons.mp hx with rfl | hx2
    · exact le_refl _
    · exact (List.pairwise_cons.mp he).1 x hx2
  · split at h
    · rename_i hlt
      injection h with h
      subst h
      rcases hx with hxf | hxe
      · rcases List.mem_cons.mp hxf with rfl | hx2
        · exact le_of_lt hlt
        · exact le_trans (le_of_lt hlt) ((List.pairwise_cons.mp hf).1 x hx2)
      · rcases List.mem_cons.mp hxe with rfl | hx2
        · exact le_refl _
        · exact (List.pairwise_cons.mp he).1 x hx2
    · rename_i hge
      injection h with h
      subst h
      rcases hx with hxf | hxe
      · rcases List.mem_cons.mp hxf with rfl | hx2
        · exact le_refl _
        · exact (List.pairwise_cons.mp hf).1 x hx2
      · rcases List.mem_cons.mp hxe with rfl | hx2
        · exact Nat.not_lt.mp hge
        · exact le_trans (Nat.not_lt.mp hge) ((List.pairwise_cons.mp he).1 x hx2)



lemma fq_dequeue_skb_subset {f : fq_flow} {p x : Pkt}
    (hx : x ∈ flowPkts (fq_dequeue_skb_flow f p)) : x ∈ flowPkts f := by
  unfold fq_dequeue_skb_flow fq_erase_head at hx
  unfold flowPkts at hx ⊢
  split at hx
  · simp only [List.mem_append] at hx ⊢
    rcases hx with hx | hx
    · exact Or.inl (List.mem_of_mem_tail hx)
    · exact Or.inr hx
  · simp only [List.mem_append] at hx ⊢
    rcases hx with hx | hx
    · exact Or.inl hx
    · exact Or.inr (List.mem_of_mem_erase hx)

lemma fq_dequeue_skb_sorted {f : fq_flow} {p : Pkt} (hf : fifoSorted f) (he : edtSorted f) :
    fifoSorted (fq_dequeue_skb_flow f p) ∧ edtSorted (fq_dequeue_skb_flow f p) := by
  unfold fq_dequeue_skb_flow fq_erase_head
  split
  · exact ⟨List.Pairwise.sublist (List.tail_sublist _) hf, he⟩
  · exact ⟨hf, List.Pairwise.sublist (List.erase_sublist _ _) he⟩

lemma mem_edtInsert {p x : Pkt} {l : List Pkt} (h : x ∈ edtInsert l p) : x ∈ l ∨ x = p := by
  induction l with
  | nil =>
    simp only [edtInsert, List.mem_singleton] at h
    exact Or.inr h
  | cons y ys ih =>
    simp only [edtInsert] at h
    split at h
    · rcases List.mem_cons.mp h with hy | hrest
      · exact Or.inl (hy ▸ List.mem_cons_self y ys)
      · rcases ih hrest with hl | hp
        · exact Or.inl (List.mem_cons_of_mem _ hl)
        · exact Or.inr hp
    · rcases List.mem_cons.mp h with hp | hl
      · exact Or.inr hp
      · exact Or.inl hl

lemma self_mem_edtInsert (p : Pkt) (l : List Pkt) : p ∈ edtInsert l p := by
  induction l with
  | nil => simp [edtInsert]
  | cons y ys ih =>
    simp only [edtInsert]
    split
    · exact List.mem_cons_of_mem _ ih
    · exact List.mem_cons_self _ _

lemma edtInsert_sorted (p : Pkt) {l : List Pkt}
    (h : l.Pairwise (fun a b => a.tts ≤ b.tts)) :
    (edtInsert l p).Pairwise (fun a b => a.tts ≤ b.tts) := by
  induction l with
  | nil => simp [edtInsert]
  | cons x xs ih =>
    rcases List.pairwise_cons.mp h with ⟨hx, hxs⟩
    simp only [edtInsert]
    split
    · rename_i hle
      refine List.pairwise_cons.mpr ⟨?_, ih hxs⟩
      intro y hy
      rcases mem_edtInsert hy with hyl | hyp
      · exact hx y hyl
      · exact hyp ▸ hle
    · rename_i hgt
      refine List.pairwise_cons.mpr ⟨?_, h⟩
      intro y hy
      rcases List.mem_cons.mp hy with hyx | hyxs
      · exact hyx ▸ le_of_lt (Nat.not_le.mp hgt)
      · exact le_trans (le_of_lt (Nat.not_le.mp hgt)) (hx y hyxs)

lemma sorted_le_last {l : List Pkt} {t : Pkt} (h : l.Pairwise (fun a b => a.tts ≤ b.tts))
    (hl : l.getLast? = some t) : ∀ x ∈ l, x.tts ≤ t.tts := by
  induction l with
  | nil => exact absurd hl (by simp)
  | cons a l ih =>
    intro x hx
    cases l with
    | nil =>
      simp only [List.getLast?_singleton] at hl
      simp only [List.mem_singleton] at hx
      injection hl with hl
      subst hl
      subst hx
      exact le_refl _
    | cons b m =>
      rw [List.getLast?_cons_cons] at hl
      rcases List.mem_cons.mp hx with rfl | hx2
      · exact (List.pairwise_cons.mp h).1 t (List.mem_of_mem_getLast? hl)
      · exact ih (List.pairwise_cons.mp h).2 hl x hx2



/-- Claim C9, amended: for a flow whose fifo chain and t_root tree are
in non-decreasing time_to_send order, fq_peek returns a packet of
minimal time_to_send (the earlier of the fifo head and the t_root
minimum), so successive peeks are non-decreasing while packets are only
removed; an interleaved enqueue of an earlier packet can still lower the
next peek, as c9_counterexample shows.  flow_queue_add appends to the
fifo tail exactly when the fifo is empty or the new time_to_send is at
least the tail one, and otherwise inserts into t_root in time_to_send
order; both removal and insertion preserve the sortedness invariants. -/
theorem c9_amended (f : fq_flow) (p : Pkt) (hf : fifoSorted f) (he : edtSorted f) :
    (∀ x ∈ flowPkts f, fq_peek f = some p → p.tts ≤ x.tts) ∧
    (∀ p2, fq_peek f = some p → fq_peek (fq_dequeue_skb_flow f p) = some p2 → p.tts ≤ p2.tts) ∧
    (fifoSorted (fq_dequeue_skb_flow f p) ∧ edtSorted (fq_dequeue_skb_flow f p)) ∧
    ((f.fifo.isEmpty || tailFits f p) = true →
       (flow_queue_add f p).fifo = f.fifo ++ [p] ∧ (flow_queue_add f p).t_root = f.t_root ∧
       fifoSorted (flow_queue_add f p)) ∧
    ((f.fifo.isEmpty || tailFits f p) = false →
       (flow_queue_add f p).fifo = f.fifo ∧ (flow_queue_add f p).t_root = edtInsert f.t_root p ∧
       edtSorted (flow_queue_add f p) ∧ p ∈ (flow_queue_add f p).t_root) ∧
    ((flow_queue_add f p).fifo = f.fifo ++ [p] ↔ (f.fifo.isEmpty || tailFits f p) = true) := by
  have hadd : (f.fifo.isEmpty || tailFits f p) = true →
      (flow_queue_add f p).fifo = f.fifo ++ [p] ∧ (flow_queue_add f p).t_root = f.t_root ∧
      fifoSorted (flow_queue_add f p) := by
    intro hc
    unfold flow_queue_add
    rw [if_pos hc]
    refine ⟨rfl, rfl, ?_⟩
    show (f.fifo ++ [p]).Pairwise (fun a b => a.tts ≤ b.tts)
    refine List.pairwise_append.mpr ⟨hf, List.pairwise_singleton _ _, ?_⟩
    intro x hx y hy
    rcases List.mem_singleton.mp hy with rfl
    rcases (Bool.or_eq_true _ _).mp hc with hemp | hfit
    · exact absurd hx (by simp [List.isEmpty_iff.mp hemp])
    · unfold tailFits at hfit
      rcases hl : f.fifo.getLast? with _ | t
      · exact absurd hx (by simp [List.getLast?_eq_none_iff.mp hl])
      · rw [hl] at hfit
        exact le_trans (sorted_le_last hf hl x hx) (of_decide_eq_true hfit)
  refine ⟨?_, ?_, fq_dequeue_skb_sorted hf he, hadd, ?_, ?_⟩
  · intro x hx hpk
    exact fq_peek_min hf he hpk x hx
  · intro p2 hpk hpk2
    exact fq_peek_min hf he hpk p2 (fq_dequeue_skb_subset (fq_peek_mem hpk2))
  · intro hc
    unfold flow_queue_add
    rw [if_neg (by simp [hc])]
    exact ⟨rfl, rfl, edtInsert_sorted p he, self_mem_edtInsert p f.t_root⟩
  · constructor
    · intro heq
      by_contra hc
      have hc2 : (f.fifo.isEmpty || tailFits f p) = false := Bool.not_eq_true _ ▸ hc
      unfold flow_queue_add at heq
      rw [if_neg (by simp [hc2])] at heq
      have := congrArg List.length heq
      simp at this
    · intro hc
      exact (hadd hc).1

/-- Claim C7, witness: the preserved bound and sortedness at the
concrete state q7 with the fresh key 3 and now = 60. -/
theorem c7_witness :
    (tndfLB (fq_flow_set_throttled q7 3) ∧ delayedSorted (fq_flow_set_throttled q7 3)) ∧
    (tndfLB (fq_flow_unset_throttled q7 3) ∧ delayedSorted (fq_flow_unset_throttled q7 3)) ∧
    (tndfLB (fq_check_throttled q7 60) ∧ delayedSorted (fq_check_throttled q7 60)) :=
  c7_amended q7 3 60 (by decide) (by decide) (by decide)

/-- The sorted two-queue flow used by the C9 witness. -/
def fW9 : fq_flow :=
  { flowDefault with fifo := [pkt0], t_root := [p100], qlen := 2 }

/-- Claim C9, witness: at the concrete flow fW9 the peeked packet has
minimal time_to_send, in particular at most that of the queued p100. -/
theorem c9_witness : pkt0.tts ≤ p100.tts :=
  (c9_amended fW9 pkt0 (by decide) (by decide)).1 p100 (by decide) (by decide)

lemma find?_setFlow {l : List fq_flow} {k : Nat} {fl f : fq_flow}
    (hf : f.sk = k)
    (hfind : l.find? (fun g => g.sk == k) = some fl) :
    (l.map (fun g => if g.sk == k then f else g)).find? (fun g => g.sk == k) = some f := by
  induction l with
  | nil => exact absurd hfind (by simp)
  | cons a l ih =>
    by_cases ha : (a.sk == k) = true
    · simp only [List.map_cons, if_pos ha]
      rw [List.find?_cons_of_pos _ (by simp [hf])]
    · have ha2 : (a.sk == k) = false := Bool.not_eq_true _ ▸ ha
      simp only [List.find?_cons, ha2, cond_false] at hfind
      simp only [List.map_cons, ha2, Bool.false_eq_true, if_false, List.find?_cons, cond_false]
      exact ih hfind

lemma getFlow_setFlow {q : fq_sched_data} {k : Nat} {fl f : fq_flow}
    (hf : f.sk = k)
    (hfind : q.flowsTbl.find? (fun g => g.sk == k) = some fl) :
    getFlow (setFlow q k f) k = f := by
  unfold getFlow setFlow
  rw [find?_setFlow hf hfind]
  rfl

lemma setFlow_delayed (q : fq_sched_data) (k : Nat) (f : fq_flow) :
    (setFlow q k f).delayed = q.delayed := rfl

lemma setFlow_old_flows (q : fq_sched_data) (k : Nat) (f : fq_flow) :
    (setFlow q k f).old_flows = q.old_flows := rfl

lemma unset_delayed (q : fq_sched_data) (k : Nat) :
    (fq_flow_unset_throttled q k).delayed = q.delayed.erase k := rfl

lemma unset_old_flows (q : fq_sched_data) (k : Nat) :
    (fq_flow_unset_throttled q k).old_flows = fq_flow_add_tail q.old_flows k := rfl

lemma fq_classify_reuse_spec (p : Pkt) (skv : Nat) (q : fq_sched_data) (fl : fq_flow)
    (hfind : q.flowsTbl.find? (fun g => g.sk == skv) = some fl) (hflsk : fl.sk = skv) :
    getFlow (fq_classify_reuse p skv q) skv =
      { fl with credit := Int.ofNat q.initial_quantum,
                socket_hash := p.sk_hash, time_next_packet := 0 } ∧
    (fq_flow_is_throttled q skv = true →
       (fq_classify_reuse p skv q).delayed = q.delayed.erase skv ∧
       (fq_classify_reuse p skv q).old_flows = fq_flow_add_tail q.old_flows skv) ∧
    (fq_flow_is_throttled q skv = false →
       (fq_classify_reuse p skv q).delayed = q.delayed ∧
       (fq_classify_reuse p skv q).old_flows = q.old_flows) := by
  have hget : getFlow q skv = fl := by
    unfold getFlow
    rw [hfind]
    rfl
  simp only [fq_classify_reuse, hget]
  have hfind2 := find?_setFlow (l := q.flowsTbl) (by simp [hflsk] :
      (({ fl with credit := Int.ofNat q.initial_quantum, socket_hash := p.sk_hash }) : fq_flow).sk = skv) hfind
  refine ⟨?_, ?_, ?_⟩
  · by_cases hthr : fq_flow_is_throttled (setFlow q skv { fl with credit := Int.ofNat q.initial_quantum, socket_hash := p.sk_hash }) skv = true
    · rw [if_pos hthr]
      have hget3 : getFlow (fq_flow_unset_throttled (setFlow q skv { fl with credit := Int.ofNat q.initial_quantum, socket_hash := p.sk_hash }) skv) skv = { fl with credit := Int.ofNat q.initial_quantum, socket_hash := p.sk_hash } := by
        unfold getFlow
        rw [show List.find? (fun f => f.sk == skv) (fq_flow_unset_throttled (setFlow q skv { fl with credit := Int.ofNat q.initial_quantum, socket_hash := p.sk_hash }) skv).flowsTbl = some { fl with credit := Int.ofNat q.initial_quantum, socket_hash := p.sk_hash } from hfind2]
        rfl
      rw [hget3]
      exact getFlow_setFlow (by simp [hflsk]) hfind2
    · rw [if_neg hthr]
      have hget2 : getFlow (setFlow q skv { fl with credit := Int.ofNat q.initial_quantum, socket_hash := p.sk_hash }) skv = { fl with credit := Int.ofNat q.initial_quantum, socket_hash := p.sk_hash } := by
        unfold getFlow
        rw [show (setFlow q skv { fl with credit := Int.ofNat q.initial_quantum, socket_hash := p.sk_hash }).flowsTbl.find? (fun g => g.sk == skv) = some { fl with credit := Int.ofNat q.initial_quantum, socket_hash := p.sk_hash } from hfind2]
        rfl
      rw [hget2]
      exact getFlow_setFlow (by simp [hflsk]) hfind2
  · intro hthrT
    rw [if_pos (show fq_flow_is_throttled (setFlow q skv { fl with credit := Int.ofNat q.initial_quantum, socket_hash := p.sk_hash }) skv = true from hthrT)]
    exact ⟨rfl, rfl⟩
  · intro hthrF
    rw [if_neg (show ¬ fq_flow_is_throttled (setFlow q skv { fl with credit := Int.ofNat q.initial_quantum, socket_hash := p.sk_hash }) skv = true from by rw [show fq_flow_is_throttled (setFlow q skv { fl with credit := Int.ofNat q.initial_quantum, socket_hash := p.sk_hash }) skv = fq_flow_is_throttled q skv from rfl, hthrF]; simp)]
    exact ⟨rfl, rfl⟩



/-- Claim C4: a classify hit for a real endpoint (skb->sk equal to the
flow key, not a listener or closed socket, not control priority) whose
stored socket_hash differs from the current sk_hash takes the
endpoint-reuse branch: the credit is reset to initial_quantum, the
socket_hash updated to the endpoint hash, time_next_packet cleared to 0,
and a throttled flow is removed from the delayed tree and appended to
old_flows; when the hashes agree the hit changes nothing. -/
theorem c4_confirmed (p : Pkt) (jiffies : Nat) (allocOk : Bool) (q : fq_sched_data)
    (skv : Nat) (fl : fq_flow)
    (hpr : p.priority &&& TC_PRIO_MAX ≠ TC_PRIO_CONTROL)
    (hsk : p.sk = some skv) (hlis : p.sk_listener = false) (hcl : p.sk_tcp_close = false)
    (hgc : ¬ (2 * 2 ^ q.fq_trees_log ≤ q.flows ∧ q.flows / 2 < q.inactive_flows))
    (hfind : q.flowsTbl.find? (fun f => f.sk == skv) = some fl) :
    (fl.socket_hash ≠ p.sk_hash →
       fq_classify p jiffies allocOk q = (ClassifyRes.flow skv, fq_classify_reuse p skv q) ∧
       getFlow (fq_classify_reuse p skv q) skv =
         { fl with credit := Int.ofNat q.initial_quantum,
                   socket_hash := p.sk_hash, time_next_packet := 0 } ∧
       (fq_flow_is_throttled q skv = true →
          (fq_classify_reuse p skv q).delayed = q.delayed.erase skv ∧
          (fq_classify_reuse p skv q).old_flows = fq_flow_add_tail q.old_flows skv) ∧
       (fq_flow_is_throttled q skv = false →
          (fq_classify_reuse p skv q).delayed = q.delayed ∧
          (fq_classify_reuse p skv q).old_flows = q.old_flows)) ∧
    (fl.socket_hash = p.sk_hash →
       fq_classify p jiffies allocOk q = (ClassifyRes.flow skv, q)) := by
  have hkey := List.find?_some hfind
  have hflsk : fl.sk = skv := by simpa using hkey
  have hkeyc : classifyKey p q = skv := by
    unfold classifyKey
    rw [hsk]
    simp [hlis, hcl]
  have hreal : classifyRealSk p = true := by
    unfold classifyRealSk
    rw [hsk]
    simp [hlis, hcl]
  constructor
  · intro hdiff
    refine ⟨?_, fq_classify_reuse_spec p skv q fl hfind hflsk⟩
    simp only [fq_classify, if_neg hpr, if_neg hgc, hkeyc, hfind, hreal]
    rw [if_pos (by simp [hdiff])]
  · intro hsame
    simp only [fq_classify, if_neg hpr, if_neg hgc, hkeyc, hfind, hreal]
    rw [if_neg (by simp [hsame])]



def fW4 : fq_flow :=
  { flowDefault with sk := 4, socket_hash := 3, credit := 2, time_next_packet := 77 }

def qW4 : fq_sched_data :=
  { initState 100 with
    flowsTbl := [fW4], flows := 1, delayed := [4], throttled_flows := 1,
    time_next_delayed_flow := 77 }

def pW4 : Pkt :=
  { pkt0 with sk := some 4, sk_hash := 9, skb_hash := 9 }

theorem c4_witness :
    fq_classify pW4 0 true qW4 = (ClassifyRes.flow 4, fq_classify_reuse pW4 4 qW4) ∧
    getFlow (fq_classify_reuse pW4 4 qW4) 4 =
      { fW4 with credit := Int.ofNat qW4.initial_quantum,
                 socket_hash := pW4.sk_hash, time_next_packet := 0 } ∧
    (fq_flow_is_throttled qW4 4 = true →
       (fq_classify_reuse pW4 4 qW4).delayed = qW4.delayed.erase 4 ∧
       (fq_classify_reuse pW4 4 qW4).old_flows = fq_flow_add_tail qW4.old_flows 4) ∧
    (fq_flow_is_throttled qW4 4 = false →
       (fq_classify_reuse pW4 4 qW4).delayed = qW4.delayed ∧
       (fq_classify_reuse pW4 4 qW4).old_flows = qW4.old_flows) :=
  (c4_confirmed pW4 0 true qW4 4 fW4 (by decide) rfl rfl rfl (by decide) (by decide)).1 (by decide)

/-- Claim C1, amended: on a successful enqueue into a flow that was
detached, pFlowid[0] (respectively pFlowid[1]) is set to the flow
freshly written socket_hash exactly when the packet source port equals
the hard-coded 46730 (respectively 46731); the configured
f1_sourceport / f2_sourceport play no role, as c1_counterexample shows. -/
theorem c1_amended (p : Pkt) (jiffies : Nat) (allocOk : Bool) (q : fq_sched_data)
    (k : Nat) (q1 : fq_sched_data)
    (hc : fq_classify p jiffies allocOk q = (ClassifyRes.flow k, q1))
    (hdet : (getFlow q1 k).detached = true)
    (hpl : (getFlow q1 k).qlen < q1.flow_plimit) :
    (fq_enqueue_rest p jiffies allocOk q).1 = EnqRes.success ∧
    (fq_enqueue_rest p jiffies allocOk q).2.pFlowid0 =
      (if p.sport = 46730 then Int.ofNat (p.skb_hash &&& q1.orphan_mask) else q1.pFlowid0) ∧
    (fq_enqueue_rest p jiffies allocOk q).2.pFlowid1 =
      (if p.sport = 46731 then Int.ofNat (p.skb_hash &&& q1.orphan_mask) else q1.pFlowid1) := by
  simp only [fq_enqueue_rest, hc]
  rw [if_neg (fun hcon => absurd hcon.1 (Nat.not_le.mpr hpl))]
  simp only [getFlowE, hdet, if_pos]
  rw [if_neg (by simp : ¬(ClassifyRes.flow k = ClassifyRes.internal))]
  refine ⟨trivial, ?_, ?_⟩ <;>
    (by_cases h0 : p.sport = 46730 <;> by_cases h1 : p.sport = 46731 <;>
      simp [h0, h1, setFlowE, setFlow, keyOfC])

/-- Claim C1, witness: the amended statement applied at the concrete
enqueue of pC1 into qC1. -/
theorem c1_witness :
    (fq_enqueue_rest pC1 0 true qC1).1 = EnqRes.success ∧
    (fq_enqueue_rest pC1 0 true qC1).2.pFlowid0 =
      (if pC1.sport = 46730 then Int.ofNat (pC1.skb_hash &&& qC1.orphan_mask) else qC1.pFlowid0) ∧
    (fq_enqueue_rest pC1 0 true qC1).2.pFlowid1 =
      (if pC1.sport = 46731 then Int.ofNat (pC1.skb_hash &&& qC1.orphan_mask) else qC1.pFlowid1) :=
  c1_amended pC1 0 true qC1 4 qC1 (by decide) (by decide) (by decide)

/-- Claim C5, amended: every successful enqueue into a detached flow
pushes the flow onto the tail of new_flows and never onto co_flows,
whatever its socket_hash; flows reach co_flows only through promotion in
dequeue (the source commented the enqueue-time co_flows placement out). -/
theorem c5_amended (p : Pkt) (jiffies : Nat) (allocOk : Bool) (q : fq_sched_data)
    (k : Nat) (q1 : fq_sched_data)
    (hc : fq_classify p jiffies allocOk q = (ClassifyRes.flow k, q1))
    (hdet : (getFlow q1 k).detached = true)
    (hpl : (getFlow q1 k).qlen < q1.flow_plimit) :
    (fq_enqueue_rest p jiffies allocOk q).1 = EnqRes.success ∧
    (fq_enqueue_rest p jiffies allocOk q).2.new_flows = fq_flow_add_tail q1.new_flows k ∧
    (fq_enqueue_rest p jiffies allocOk q).2.co_flows = q1.co_flows := by
  simp only [fq_enqueue_rest, hc]
  rw [if_neg (fun hcon => absurd hcon.1 (Nat.not_le.mpr hpl))]
  simp only [getFlowE, hdet, if_pos]
  rw [if_neg (by simp : ¬(ClassifyRes.flow k = ClassifyRes.internal))]
  refine ⟨trivial, ?_, ?_⟩ <;>
    (by_cases h0 : p.sport = 46730 <;> by_cases h1 : p.sport = 46731 <;>
      simp [h0, h1, setFlowE, setFlow, keyOfC, fq_flow_add_tail])

/-- Claim C5, witness: the amended statement applied at the concrete
enqueue of pC1 into qC5 (whose pFlowid[0] matches the flow hash). -/
theorem c5_witness :
    (fq_enqueue_rest pC1 0 true qC5).1 = EnqRes.success ∧
    (fq_enqueue_rest pC1 0 true qC5).2.new_flows = fq_flow_add_tail qC5.new_flows 4 ∧
    (fq_enqueue_rest pC1 0 true qC5).2.co_flows = qC5.co_flows :=
  c5_amended pC1 0 true qC5 4 qC5 (by decide) (by decide) (by decide)

lemma fq_gc_qlen (j k : Nat) (q : fq_sched_data) : (fq_gc j k q).qlen = q.qlen := by
  simp only [fq_gc]
  split <;> rfl

lemma fq_classify_reuse_qlen (p : Pkt) (k : Nat) (q : fq_sched_data) :
    (fq_classify_reuse p k q).qlen = q.qlen := by
  simp only [fq_classify_reuse]
  split <;> rfl

lemma fq_classify_qlen (p : Pkt) (j : Nat) (ok : Bool) (q : fq_sched_data) :
    (fq_classify p j ok q).2.qlen = q.qlen := by
  have hgcq : ∀ k, (if 2 * 2 ^ q.fq_trees_log ≤ q.flows ∧ q.flows / 2 < q.inactive_flows
      then fq_gc j k q else q).qlen = q.qlen := by
    intro k
    split
    · exact fq_gc_qlen j k q
    · rfl
  simp only [fq_classify]
  split
  · rfl
  · split
    · split
      · rw [fq_classify_reuse_qlen]
        exact hgcq _
      · exact hgcq _
    · split
      · exact hgcq _
      · exact hgcq _

lemma fq_gc_caps (j k : Nat) (q : fq_sched_data) :
    (fq_gc j k q).stat_horizon_caps = q.stat_horizon_caps := by
  simp only [fq_gc]
  split <;> rfl

lemma fq_classify_reuse_caps (p : Pkt) (k : Nat) (q : fq_sched_data) :
    (fq_classify_reuse p k q).stat_horizon_caps = q.stat_horizon_caps := by
  simp only [fq_classify_reuse]
  split <;> rfl

lemma fq_classify_caps (p : Pkt) (j : Nat) (ok : Bool) (q : fq_sched_data) :
    (fq_classify p j ok q).2.stat_horizon_caps = q.stat_horizon_caps := by
  have hgcq : ∀ k, (if 2 * 2 ^ q.fq_trees_log ≤ q.flows ∧ q.flows / 2 < q.inactive_flows
      then fq_gc j k q else q).stat_horizon_caps = q.stat_horizon_caps := by
    intro k
    split
    · exact fq_gc_caps j k q
    · rfl
  simp only [fq_classify]
  split
  · rfl
  · split
    · split
      · rw [fq_classify_reuse_caps]
        exact hgcq _
      · exact hgcq _
    · split
      · exact hgcq _
      · exact hgcq _

lemma setFlowE_qlen (q : fq_sched_data) (c : ClassifyRes) (f : fq_flow) :
    (setFlowE q c f).qlen = q.qlen := by cases c <;> rfl

lemma setFlowE_caps (q : fq_sched_data) (c : ClassifyRes) (f : fq_flow) :
    (setFlowE q c f).stat_horizon_caps = q.stat_horizon_caps := by cases c <;> rfl

lemma fq_enqueue_rest_success_qlen (p : Pkt) (j : Nat) (ok : Bool) (q q2 : fq_sched_data)
    (h : fq_enqueue_rest p j ok q = (EnqRes.success, q2)) : q2.qlen = q.qlen + 1 := by
  simp only [fq_enqueue_rest] at h
  split at h
  · exact absurd (congrArg Prod.fst h) (by simp)
  · injection h with h1 h2
    subst h2
    show _ + 1 = q.qlen + 1
    refine congrArg (· + 1) ?_
    rw [show ∀ qq : fq_sched_data, (if (fq_classify p j ok q).1 = ClassifyRes.internal then
          { qq with stat_internal_packets := qq.stat_internal_packets + 1 } else qq).qlen
          = qq.qlen from fun qq => by split <;> rfl]
    rw [setFlowE_qlen]
    repeat' split
    all_goals exact fq_classify_qlen p j ok q



lemma fq_enqueue_rest_caps (p : Pkt) (j : Nat) (ok : Bool) (q : fq_sched_data) (r : EnqRes)
    (q2 : fq_sched_data) (h : fq_enqueue_rest p j ok q = (r, q2)) :
    q2.stat_horizon_caps = q.stat_horizon_caps := by
  simp only [fq_enqueue_rest] at h
  split at h
  · injection h with h1 h2
    subst h2
    exact fq_classify_caps p j ok q
  · injection h with h1 h2
    subst h2
    dsimp only
    rw [show ∀ qq : fq_sched_data, (if (fq_classify p j ok q).1 = ClassifyRes.internal then
          { qq with stat_internal_packets := qq.stat_internal_packets + 1 } else qq).stat_horizon_caps
          = qq.stat_horizon_caps from fun qq => by split <;> rfl]
    rw [setFlowE_caps]
    repeat' split
    all_goals exact fq_classify_caps p j ok q



/-- Claim C8: a packet with a nonzero timestamp beyond the refreshed
clock plus horizon (given a monotone clock cache and room under the
global limit) is dropped with the horizon_drops counter incremented and
nothing queued when horizon_drop is set; otherwise its timestamp and
time_to_send are capped to now + horizon, horizon_caps is incremented,
and the capped packet proceeds to the queueing stage, which on success
queues exactly one packet and leaves horizon_caps at the incremented
value. -/
theorem c8_confirmed (p : Pkt) (now jiffies : Nat) (allocOk : Bool) (q : fq_sched_data)
    (hql : q.qlen < q.limit) (ht : p.tstamp ≠ 0)
    (hh : now + q.horizon < p.tstamp) (hm : q.ktime_cache ≤ now) :
    (q.horizon_drop = true →
       fq_enqueue p now jiffies allocOk q =
         (EnqRes.dropHorizon,
          { q with ktime_cache := now, stat_horizon_drops := q.stat_horizon_drops + 1 })) ∧
    (q.horizon_drop = false →
       fq_enqueue p now jiffies allocOk q =
         fq_enqueue_rest { p with tstamp := now + q.horizon, tts := now + q.horizon }
           jiffies allocOk
           { q with ktime_cache := now, stat_horizon_caps := q.stat_horizon_caps + 1 } ∧
       (∀ q2 : fq_sched_data,
          fq_enqueue_rest { p with tstamp := now + q.horizon, tts := now + q.horizon }
            jiffies allocOk
            { q with ktime_cache := now, stat_horizon_caps := q.stat_horizon_caps + 1 }
            = (EnqRes.success, q2) →
          q2.qlen = q.qlen + 1 ∧ q2.stat_horizon_caps = q.stat_horizon_caps + 1)) := by
  have hb1 : fq_packet_beyond_horizon p q = true :=
    decide_eq_true (lt_of_le_of_lt (Nat.add_le_add_right hm q.horizon) hh)
  have hb2 : fq_packet_beyond_horizon p { q with ktime_cache := now } = true :=
    decide_eq_true hh
  constructor
  · intro hdrop
    simp only [fq_enqueue, fq_enqueue_stamp]
    rw [if_neg (Nat.not_le.mpr hql), if_neg ht, if_pos hb1, if_pos hb2,
      if_pos (show ({ q with ktime_cache := now } : fq_sched_data).horizon_drop = true from hdrop)]
  · intro hdrop
    constructor
    · simp only [fq_enqueue, fq_enqueue_stamp]
      rw [if_neg (Nat.not_le.mpr hql), if_neg ht, if_pos hb1, if_pos hb2,
        if_neg (show ¬ ({ q with ktime_cache := now } : fq_sched_data).horizon_drop = true from by
          rw [show ({ q with ktime_cache := now } : fq_sched_data).horizon_drop = q.horizon_drop from rfl, hdrop]
          simp)]
    · intro q2 hrest
      have h1 := fq_enqueue_rest_success_qlen _ _ _ _ _ hrest
      have h2 := fq_enqueue_rest_caps _ _ _ _ _ _ hrest
      exact ⟨h1, h2⟩



def q8 : fq_sched_data := { initState 100 with horizon := 50, ktime_cache := 2 }

def p8 : Pkt := { pkt0 with tstamp := 500 }

theorem c8_witness :
    fq_enqueue p8 5 0 true q8 =
      (EnqRes.dropHorizon,
       { q8 with ktime_cache := 5, stat_horizon_drops := q8.stat_horizon_drops + 1 }) :=
  (c8_confirmed p8 5 0 true q8 (by decide) (by decide) (by decide) (by decide)).1 rfl

lemma fq_change_drops_noop (now jiffies dqFuel : Nat) (fuel : Nat) (q : fq_sched_data)
    (h : q.qlen ≤ q.limit) : fq_change_drops now jiffies dqFuel fuel q = q := by
  cases fuel with
  | zero => rfl
  | succ n => exact if_neg (Nat.not_lt.mpr h)



/-- Claim C10: fq_change with one out-of-range attribute (quantum zero
or above 2^20 in the first part, buckets_log outside 1..18 in the
second) returns -EINVAL yet still applies every other in-range attribute
of the same blob to the live state; only the hash-table resize is
skipped (fq_trees_log is unchanged), so the update is not atomic on
error. -/
theorem c10_confirmed (a b qv c re fdr mr blv rd om lrt ce tsl hz hd s1 s2 d1 d2 : Nat)
    (now jiffies dqF dropF : Nat) (q : fq_sched_data)
    (hre : re ≤ 1) (hqlen : q.qlen ≤ a) :
    ((qv = 0 ∨ 1048576 < qv) → 1 ≤ blv → blv ≤ 18 →
       fq_change (FqOpts.mk (some a) (some b) (some qv) (some c) (some re) (some fdr)
           (some mr) (some blv) (some rd) (some om) (some lrt) (some ce) (some tsl)
           (some hz) (some hd) (some s1) (some s2) (some d1) (some d2))
         now jiffies dqF dropF q =
       (-22, { q with
               limit := a, flow_plimit := b, initial_quantum := c,
               flow_max_rate := if mr = 4294967295 then INF64 else mr,
               low_rate_threshold := lrt, rate_enable := re == 1,
               flow_refill_delay := usecs_to_jiffies rd, orphan_mask := om,
               ce_threshold := NSEC_PER_USEC * ce, timer_slack := tsl,
               horizon := NSEC_PER_USEC * hz, horizon_drop := !(hd == 0),
               f1_sourceport := s1, f2_sourceport := s2, f1_destport := d1,
               f2_destport := d2 })) ∧
    ((blv = 0 ∨ 19 ≤ blv) → 0 < qv → qv ≤ 1048576 →
       fq_change (FqOpts.mk (some a) (some b) (some qv) (some c) (some re) (some fdr)
           (some mr) (some blv) (some rd) (some om) (some lrt) (some ce) (some tsl)
           (some hz) (some hd) (some s1) (some s2) (some d1) (some d2))
         now jiffies dqF dropF q =
       (-22, { q with
               limit := a, flow_plimit := b, quantum := qv, initial_quantum := c,
               flow_max_rate := if mr = 4294967295 then INF64 else mr,
               low_rate_threshold := lrt, rate_enable := re == 1,
               flow_refill_delay := usecs_to_jiffies rd, orphan_mask := om,
               ce_threshold := NSEC_PER_USEC * ce, timer_slack := tsl,
               horizon := NSEC_PER_USEC * hz, horizon_drop := !(hd == 0),
               f1_sourceport := s1, f2_sourceport := s2, f1_destport := d1,
               f2_destport := d2 })) := by
  have hresize : ¬((-22 : Int) = 0) := by decide
  constructor
  · intro hqv hb1 hb2
    have hq : ¬(0 < qv ∧ qv ≤ 1048576) := by
      rintro ⟨hc1, hc2⟩
      rcases hqv with h0 | h0 <;> omega
    simp only [fq_change]
    simp only [if_pos (show (1 : Nat) ≤ blv ∧ blv ≤ 18 from ⟨hb1, hb2⟩), if_neg hq, if_pos hre]
    rw [if_neg hresize]
    rw [fq_change_drops_noop now jiffies dqF dropF]
    exact hqlen
  · intro hbv h1 h2
    have hb : ¬((1 : Nat) ≤ blv ∧ blv ≤ 18) := by
      rintro ⟨hc1, hc2⟩
      rcases hbv with h0 | h0 <;> omega
    simp only [fq_change]
    simp only [if_neg hb, if_pos (show 0 < qv ∧ qv ≤ 1048576 from ⟨h1, h2⟩), if_pos hre]
    rw [if_neg hresize]
    rw [fq_change_drops_noop now jiffies dqF dropF]
    exact hqlen

/-- Claim C10, witness: the non-atomic error behaviour at a concrete
blob with quantum = 0 and every other attribute in range. -/
theorem c10_witness :
    fq_change (FqOpts.mk (some 50) (some 5) (some 0) (some 700) (some 1) (some 3)
        (some 4294967295) (some 9) (some 1000000) (some 63) (some 100) (some 2) (some 7)
        (some 3) (some 0) (some 11) (some 12) (some 13) (some 14)) 5 0 4 4 (initState 100) =
    (-22, { initState 100 with
            limit := 50, flow_plimit := 5, initial_quantum := 700,
            flow_max_rate := if 4294967295 = 4294967295 then INF64 else 4294967295,
            low_rate_threshold := 100, rate_enable := 1 == 1,
            flow_refill_delay := usecs_to_jiffies 1000000, orphan_mask := 63,
            ce_threshold := NSEC_PER_USEC * 2, timer_slack := 7,
            horizon := NSEC_PER_USEC * 3, horizon_drop := !(0 == 0),
            f1_sourceport := 11, f2_sourceport := 12, f1_destport := 13,
            f2_destport := 14 }) :=
  (c10_confirmed 50 5 0 700 1 3 4294967295 9 1000000 63 100 2 7 3 0 11 12 13 14
    5 0 4 4 (initState 100) (by decide) (by decide)).1 (Or.inl rfl) (by decide) (by decide)


end SchFq
